import Mathlib

/-
Verification of the postgres typed-value/codec layer: the write-path escaper
and the composite tokenizer (escape/split), the integer fit check (fitInt)
and integer scanning (pgInteger.Scan), text scanning with Char/VarChar/Text
semantics (pgText.Scan), boolean scanning (pgBool.Scan), float scanning
(pgFloat.Scan), the hstore parser (parseHStore) and record field lookup
(pgRecord.ValueBy).

Go byte strings are modelled as `List Nat` (one entry per byte); Go strings
are byte strings as well, so both are `List Nat`.  Errors produced via
fmt.Errorf are modelled as an inductive carrying the formatted arguments.
A Go runtime fault (index out of range) is modelled by an `Option` result
with `none` for the fault.
-/

namespace PG

set_option maxHeartbeats 1000000

/-- var nullBytes = []byte("NULL") -/
def nullBytes : List Nat := [78, 85, 76, 76]

/-- Error values produced by the codec layer.  Each constructor corresponds to
one fmt.Errorf call site (or a strconv error) and carries the data interpolated
into the message, so the theorems can say which error is raised and what the
message names. -/
inductive PgError where
  /-- fmt.Errorf("Cannot fit %v into int%d", r, bitSize) in fitInt -/
  | cannotFitInt (v : Int) (bits : Nat)
  /-- fmt.Errorf("invalid bitSize %d", bitSize) in fitInt -/
  | invalidBitSize (bits : Nat)
  /-- strconv.ParseInt syntax error; the message shows the input, not the width -/
  | parseIntSyntax (s : List Nat)
  /-- strconv.ParseInt range error; the message shows the input, not the width -/
  | parseIntRange (s : List Nat)
  /-- fmt.Errorf("cannot fit float64 %f into REAL Value", x) in pgFloat.Scan -/
  | cannotFitReal (x : Rat)
  /-- fmt.Errorf("cannot fit %s into Char(%d) Value", s, n) in pgText.Scan -/
  | cannotFitChar (s : List Nat) (n : Int)
  /-- fmt.Errorf("cannot split data. Unknown format: %s", s) in split -/
  | splitUnknownFormat (s : List Nat)
  /-- fmt.Errorf("cannot split data. missing '%s': %s", mode, s) in split -/
  | splitMissingCloser (mode : Nat) (s : List Nat)
deriving DecidableEq, Repr

/-- bytes.Replace(s, old, new, -1) for a one-byte pattern `old = [a]`:
replace every occurrence of `a` by `rep`, scanning left to right. -/
def replace1 (a : Nat) (rep : List Nat) : List Nat → List Nat
  | [] => []
  | b :: rest => if b = a then rep ++ replace1 a rep rest else b :: replace1 a rep rest

/-- bytes.Replace(s, old, new, -1) for a two-byte pattern `old = [a1, a2]`:
replace every non-overlapping occurrence of `a1 a2` by `rep`, scanning left to
right. -/
def replace2 (a1 a2 : Nat) (rep : List Nat) : List Nat → List Nat
  | [] => []
  | [b] => [b]
  | b1 :: b2 :: rest =>
    if b1 = a1 ∧ b2 = a2 then rep ++ replace2 a1 a2 rep rest
    else b1 :: replace2 a1 a2 rep (b2 :: rest)

/-- func escape(s []byte, t int) []byte.
t = 0: no quoting; otherwise first double every backslash, then
t = 1: replace `"` by `\"` (array style), t = 2: replace `"` by `""`
(row style); any other t leaves quotes untouched after the backslash pass. -/
def escape (s : List Nat) (t : Int) : List Nat :=
  if t = 0 then s
  else
    let s1 := replace1 92 [92, 92] s
    match t with
    | 1 => replace1 34 [92, 34] s1
    | 2 => replace1 34 [34, 34] s1
    | _ => s1

/-- encoding/hex digit value (0-9, a-f, A-F). -/
def hexVal (c : Nat) : Option Nat :=
  if 48 ≤ c ∧ c ≤ 57 then some (c - 48)
  else if 97 ≤ c ∧ c ≤ 102 then some (c - 87)
  else if 65 ≤ c ∧ c ≤ 70 then some (c - 55)
  else none

/-- hex.DecodeString: decode pairs of hex digits left to right; on an invalid
digit or an odd trailing digit it stops and returns the bytes decoded so far
(the split function discards the error, keeping just these bytes). -/
def hexDecode : List Nat → List Nat
  | [] => []
  | [_] => []
  | c1 :: c2 :: rest =>
    match hexVal c1, hexVal c2 with
    | some hi, some lo => (16 * hi + lo) :: hexDecode rest
    | _, _ => []

/-- The mutable locals of the split loop: collected parts, the escape-skip
flag, the brace depth, the outer mode byte (`}` or `)`), the expected closing
byte of the current element, and the current element start/end indices
(`-1` = unset, as in the Go code). -/
structure SplitState where
  parts : List (List Nat)
  ignore : Bool
  dep : Int
  mode : Nat
  closer : Nat
  a : Int
  z : Int
deriving DecidableEq, Repr

/-- One iteration of the split scan at index `i` with byte `b`; `look` is the
following byte s[i+1] (only inspected for the row-dialect `""` check, which the
Go code guards so that it is never read past the end), `len` is the total input
length.  Mirrors the switch in func split for i > 0. -/
def splitStep (sFull : List Nat) (len i b look : Nat) (st : SplitState) :
    Except PgError SplitState :=
  if st.a = -1 then
    -- not inside a value: skip space/comma, or mark the start of an element
    if b = 32 ∨ b = 44 then .ok st
    else if b = 123 then .ok { st with a := (i : Int), dep := st.dep + 1, closer := 125 }
    else if b = 34 then .ok { st with a := (i : Int) + 1, closer := 34 }
    else .ok { st with a := (i : Int), closer := 44 }
  else if i = len - 1 then
    -- last byte must be the outer closing delimiter
    if b ≠ st.mode then .error (.splitMissingCloser st.mode sFull)
    else .ok { st with z := (i : Int) - 1 }
  else
    if st.ignore = false ∧ st.mode = 125 ∧ b = 92 then .ok { st with ignore := true }
    else if st.ignore = false ∧ st.mode = 41 ∧ b = 34 ∧ look = 34 then
      .ok { st with ignore := true }
    else if st.ignore = true then .ok { st with ignore := false }
    else if st.closer = 125 ∧ (b = 123 ∨ b = 125) then
      if b = 123 then .ok { st with dep := st.dep + 1 }
      else if st.dep - 1 = 0 then .ok { st with dep := st.dep - 1, z := (i : Int) }
      else .ok { st with dep := st.dep - 1 }
    else if st.closer = 34 ∧ b = 34 then .ok { st with z := (i : Int) - 1 }
    else if st.closer = 44 ∧ b = 44 then .ok { st with z := (i : Int) - 1 }
    else .ok st

/-- The "check for end" block of the split loop: when `z` is set, slice the
element out of the input, unescape `\\`, apply the dialect quote-unescape,
hex-decode a `\x…` payload, append the element and reset the markers. -/
def splitExtract (sFull : List Nat) (st : SplitState) : SplitState :=
  if st.z ≠ -1 then
    let part0 := (sFull.drop st.a.toNat).take (st.z + 1 - st.a).toNat
    let part1 := replace2 92 92 [92] part0
    let part2 :=
      if st.mode = 125 then replace2 92 34 [34] part1
      else if st.mode = 41 then replace2 34 34 [34] part1
      else part1
    let part3 :=
      if 2 ≤ part2.length ∧ part2.headD 0 = 92 ∧ (part2.drop 1).headD 0 = 120
      then hexDecode (part2.drop 2) else part2
    { st with parts := st.parts ++ [part3], a := -1, z := -1, dep := 0 }
  else st

/-- The split loop over the remaining bytes `bs` (the suffix of `sFull`
starting at index `i`). -/
def splitLoop (sFull : List Nat) (len : Nat) : Nat → List Nat → SplitState →
    Except PgError (List (List Nat))
  | _, [], st => .ok st.parts
  | i, b :: bs, st =>
    match splitStep sFull len i b (bs.headD 0) st with
    | .error e => .error e
    | .ok st' => splitLoop sFull len (i + 1) bs (splitExtract sFull st')

/-- func split(s []byte) ([][]byte, error): take the byte representation of an
array or row literal and return each element unescaped (and hex-decoded when it
carries a `\x` prefix).  The first byte selects the dialect. -/
def split (s : List Nat) : Except PgError (List (List Nat)) :=
  match s with
  | [] => .ok []
  | b :: rest =>
    let st0 : SplitState :=
      { parts := [], ignore := false, dep := 0, mode := 0, closer := 0, a := -1, z := -1 }
    if b = 123 then splitLoop s s.length 1 rest { st0 with mode := 125 }
    else if b = 40 then splitLoop s s.length 1 rest { st0 with mode := 41 }
    else .error (.splitUnknownFormat s)

/-- func fitInt(v interface{}, bitSize int) (int64, error), for a native signed
integer input.  Conversion of any signed Go integer to int64 is lossless, so
`r` is the mathematical value directly; the unsigned arms (which additionally
reject uint/uint64 values at or above MaxInt64) are not modelled here.  The
fits check is strict-less-than against the signed maximum for widths 8/16/32
and unconditional for 64; there is no lower-bound check. -/
def fitInt (r : Int) (bitSize : Nat) : Except PgError Int :=
  match bitSize with
  | 8 => if r < 127 then .ok r else .error (.cannotFitInt r 8)
  | 16 => if r < 32767 then .ok r else .error (.cannotFitInt r 16)
  | 32 => if r < 2147483647 then .ok r else .error (.cannotFitInt r 32)
  | 64 => .ok r
  | _ => .error (.invalidBitSize bitSize)

/-- Accumulate decimal digits (bytes 48-57); any other byte is a syntax error. -/
def parseDigits : List Nat → Nat → Option Nat
  | [], acc => some acc
  | c :: rest, acc =>
    if 48 ≤ c ∧ c ≤ 57 then parseDigits rest (acc * 10 + (c - 48)) else none

/-- strconv.ParseInt(string(s), 10, bitSize): optional sign, decimal digits,
then a signed bitSize range check.  Returns the parsed (or, on a range error,
clamped) value together with an optional error, matching the Go pair return;
the strconv error message names the input string but not the bit width. -/
def parseInt (s : List Nat) (bitSize : Nat) : Int × Option PgError :=
  let signDigits : Bool × List Nat :=
    match s with
    | 43 :: rest => (false, rest)
    | 45 :: rest => (true, rest)
    | _ => (false, s)
  let neg := signDigits.1
  let ds := signDigits.2
  if ds = [] then (0, some (.parseIntSyntax s))
  else
    match parseDigits ds 0 with
    | none => (0, some (.parseIntSyntax s))
    | some m =>
      let v : Int := if neg then -(m : Int) else (m : Int)
      let hi : Int := 2 ^ (bitSize - 1) - 1
      let lo : Int := -(2 ^ (bitSize - 1))
      if v < lo then (lo, some (.parseIntRange s))
      else if hi < v then (hi, some (.parseIntRange s))
      else (v, none)

/-- type pgInteger struct { n int64; bs int; valid bool } -/
structure pgInteger where
  n : Int
  bs : Nat
  valid : Bool
deriving DecidableEq, Repr

/-- func newInt(bs int, data interface{}): the fresh state &pgInteger{0, bs, false}
before the initial Scan.  SmallInt = newInt 16, Integer = newInt 32,
BigInt = newInt 64. -/
def newInt (bs : Nat) : pgInteger := ⟨0, bs, false⟩

/-- The decode inputs exercised by pgInteger.Scan: absence, a native signed
integer (the int/int8/…/int64 arms), or a byte-slice/string of decimal digits
(both parsed identically via strconv.ParseInt). -/
inductive IntSrc where
  | null
  | int (v : Int)
  | bytes (b : List Nat)
  | str (s : List Nat)
deriving DecidableEq

/-- func (k *pgInteger) Scan(src interface{}) error.  Returns the updated state
and the optional error: nil input sets NULL and succeeds; any other input sets
valid=true before converting, so a failing conversion still leaves the value
non-NULL. -/
def pgIntegerScan (k : pgInteger) (src : IntSrc) : pgInteger × Option PgError :=
  match src with
  | .null => ({ k with valid := false }, none)
  | .int v =>
    match fitInt v k.bs with
    | .ok r => ({ k with n := r, valid := true }, none)
    | .error e => ({ k with n := 0, valid := true }, some e)
  | .bytes b =>
    let r := parseInt b k.bs
    ({ k with n := r.1, valid := true }, r.2)
  | .str s =>
    let r := parseInt s k.bs
    ({ k with n := r.1, valid := true }, r.2)

/-- func (k *pgInteger) IsNull() bool -/
def pgIntegerIsNull (k : pgInteger) : Bool := !k.valid

/-- Decimal digits of a natural number (fuel-indexed so the kernel can
evaluate it). -/
def natDecAux : Nat → Nat → List Nat
  | 0, _ => []
  | fuel + 1, n => if n < 10 then [48 + n] else natDecAux fuel (n / 10) ++ [48 + n % 10]

/-- fmt.Sprintf("%d", n) for a natural number. -/
def natDec (n : Nat) : List Nat := natDecAux (n + 1) n

/-- fmt.Sprintf("%d", v) for an integer. -/
def intDec (v : Int) : List Nat :=
  if v < 0 then 45 :: natDec (-v).toNat else natDec v.toNat

/-- func (k *pgInteger) Val() interface{}: nil when NULL, else the int64. -/
def pgIntegerVal (k : pgInteger) : Option Int :=
  if !k.valid then none else some k.n

/-- func (k *pgInteger) String() string: empty when NULL. -/
def pgIntegerString (k : pgInteger) : List Nat :=
  if !k.valid then [] else intDec k.n

/-- func (k *pgInteger) bytes() ([]byte, error): the NULL sentinel when NULL. -/
def pgIntegerBytes (k : pgInteger) : List Nat :=
  if !k.valid then nullBytes else intDec k.n

/-- type pgText struct { s string; n int; p bool; valid bool } -/
structure pgText where
  s : List Nat
  n : Int
  p : Bool
  valid : Bool
deriving DecidableEq, Repr

/-- The decode inputs exercised by pgText.Scan: absence, string or byte slice
(stored identically). -/
inductive TextSrc where
  | null
  | str (s : List Nat)
  | bytes (b : List Nat)
deriving DecidableEq

/-- strings.TrimRight(s, " "): drop trailing space bytes. -/
def trimRightSpace (s : List Nat) : List Nat :=
  (s.reverse.dropWhile (fun c => c == 32)).reverse

/-- func (k *pgText) Scan(src interface{}) error.  With padding (Char(n)):
trim trailing spaces, error when the trimmed value is longer than n, else
space-pad on the right to exactly n.  Without padding (VarChar(n)): silently
truncate to n bytes, but only when n > 0; Text has n = 0 and never constrains. -/
def pgTextScan (k : pgText) (src : TextSrc) : pgText × Option PgError :=
  match src with
  | .null => ({ k with valid := false }, none)
  | .str x | .bytes x =>
    let k := { k with s := x, valid := true }
    if k.p then
      let t := trimRightSpace x
      if (t.length : Int) > k.n then ({ k with s := t }, some (.cannotFitChar t k.n))
      else if (t.length : Int) < k.n then
        ({ k with s := t ++ List.replicate (k.n.toNat - t.length) 32 }, none)
      else ({ k with s := t }, none)
    else if k.n > 0 ∧ (x.length : Int) > k.n then
      ({ k with s := x.take k.n.toNat }, none)
    else (k, none)

/-- func Text / VarChar(n) / Char(n): the fresh pgText states the constructors
build before the initial Scan. -/
def newText : pgText := ⟨[], 0, false, false⟩

/-- VarChar(n) fresh state: &pgText{"", n, false, false}. -/
def newVarChar (n : Int) : pgText := ⟨[], n, false, false⟩

/-- Char(n) fresh state: &pgText{"", n, true, false}. -/
def newChar (n : Int) : pgText := ⟨[], n, true, false⟩

/-- func (k *pgText) IsNull() bool -/
def pgTextIsNull (k : pgText) : Bool := !k.valid

/-- func (k *pgText) Val() interface{}: nil when NULL, else the string. -/
def pgTextVal (k : pgText) : Option (List Nat) :=
  if !k.valid then none else some k.s

/-- func (k *pgText) String() string: empty when NULL. -/
def pgTextString (k : pgText) : List Nat :=
  if !k.valid then [] else k.s

/-- func (k *pgText) bytes() ([]byte, error): the NULL sentinel when NULL. -/
def pgTextBytes (k : pgText) : List Nat :=
  if !k.valid then nullBytes else k.s

/-- type pgBool struct { b bool; valid bool } -/
structure pgBool where
  b : Bool
  valid : Bool
deriving DecidableEq, Repr

/-- The decode inputs of pgBool.Scan: absence, string, int, byte slice, bool. -/
inductive BoolSrc where
  | null
  | str (s : List Nat)
  | int (v : Int)
  | bytes (bt : List Nat)
  | bool (x : Bool)
deriving DecidableEq

/-- func (k *pgBool) Scan(src interface{}) error.  String and byte input read
x[0] unconditionally, so an empty input is a runtime index-out-of-range fault,
modelled as `none`; otherwise the value is true exactly when the first byte is
't' or '1', never an error. -/
def pgBoolScan (k : pgBool) (src : BoolSrc) : Option (pgBool × Option PgError) :=
  match src with
  | .null => some ({ k with valid := false }, none)
  | .str s =>
    match s with
    | [] => none
    | c :: _ => some (⟨c == 116 || c == 49, true⟩, none)
  | .int v => some (⟨v == 1, true⟩, none)
  | .bytes bt =>
    match bt with
    | [] => none
    | c :: _ => some (⟨c == 116 || c == 49, true⟩, none)
  | .bool x => some (⟨x, true⟩, none)

/-- func (k *pgBool) IsNull() bool -/
def pgBoolIsNull (k : pgBool) : Bool := !k.valid

/-- func (k *pgBool) Val() interface{}: nil when NULL, else the bool. -/
def pgBoolVal (k : pgBool) : Option Bool :=
  if !k.valid then none else some k.b

/-- func (k *pgBool) String() string: empty when NULL, else "t" or "f". -/
def pgBoolString (k : pgBool) : List Nat :=
  if !k.valid then [] else if k.b then [116] else [102]

/-- func (k *pgBool) bytes() ([]byte, error): the NULL sentinel when NULL. -/
def pgBoolBytes (k : pgBool) : List Nat :=
  if !k.valid then nullBytes else if k.b then [116] else [102]

/-- math.MaxFloat32 = (2 - 2^-23) * 2^127, exactly representable as float64. -/
def maxFloat32 : Rat := 340282346638528859811704183484516925440

/-- type pgFloat struct { n float64; bs int; valid bool }.  Finite float64
values are a subset of the rationals and float64 comparison/storage is exact
on them, so the stored number is a rational. -/
structure pgFloat where
  n : Rat
  bs : Nat
  valid : Bool
deriving DecidableEq, Repr

/-- func newFloat(bs int, data interface{}): the fresh state
&pgFloat{0, bs, false}.  Real = newFloat 32, Double = newFloat 64. -/
def newFloat (bs : Nat) : pgFloat := ⟨0, bs, false⟩

/-- The decode inputs modelled for pgFloat.Scan: absence, or a native float64
(the float32/string/[]byte arms go through conversions not needed here). -/
inductive FloatSrc where
  | null
  | f64 (x : Rat)
deriving DecidableEq

/-- func (k *pgFloat) Scan(src interface{}) error, float64 arm: a 32-bit value
rejects x when x > math.MaxFloat32 (one-sided: no check against the negative
range), otherwise the full float64 value is stored unchanged. -/
def pgFloatScan (k : pgFloat) (src : FloatSrc) : pgFloat × Option PgError :=
  match src with
  | .null => ({ k with valid := false }, none)
  | .f64 x =>
    if k.bs = 32 ∧ x > maxFloat32 then ({ k with valid := true }, some (.cannotFitReal x))
    else ({ k with n := x, valid := true }, none)

/-- func (k *pgFloat) IsNull() bool -/
def pgFloatIsNull (k : pgFloat) : Bool := !k.valid

/-- func (k *pgFloat) Val() interface{}: nil when NULL, else the float64. -/
def pgFloatVal (k : pgFloat) : Option Rat :=
  if !k.valid then none else some k.n

/-- The result of a text-form/raw-form accessor that may call
strconv.FormatFloat: either a literal byte string, or a deferred
FormatFloat(x, 'f', -1, prec) call recorded with its arguments. -/
inductive FmtBytes where
  | lit (b : List Nat)
  | floatFmt (x : Rat) (prec : Nat)
deriving DecidableEq

/-- func (k *pgFloat) String() string: empty when NULL, else
strconv.FormatFloat(k.n, 'f', -1, 32) — always 32-bit precision, for the
64-bit type as well. -/
def pgFloatString (k : pgFloat) : FmtBytes :=
  if !k.valid then .lit [] else .floatFmt k.n 32

/-- func (k *pgFloat) bytes() ([]byte, error): the NULL sentinel when NULL,
else the bytes of String(). -/
def pgFloatBytes (k : pgFloat) : FmtBytes :=
  if !k.valid then .lit nullBytes else .floatFmt k.n 32

/-- Go map assignment m[key] = v on an association list: overwrite the entry
when the key exists, otherwise append. -/
def mapSet (m : List (List Nat × List Nat)) (key v : List Nat) :
    List (List Nat × List Nat) :=
  match m with
  | [] => [(key, v)]
  | kv :: rest => if kv.1 = key then (key, v) :: rest else kv :: mapSet rest key v

/-- Key/value unescaping in parseHStore: `\\` → `\`, then `\"` → `"`. -/
def hsUnesc (x : List Nat) : List Nat :=
  replace2 92 34 [34] (replace2 92 92 [92] x)

/-- The pair-completion block of parseHStore: slice key and value out of the
input; a raw value equal to the literal NULL is dropped (the key is not
stored at all), otherwise both sides are unescaped and the pair stored. -/
def hsEmit (sFull : List Nat) (ka kz va vz : Int)
    (m : List (List Nat × List Nat)) : List (List Nat × List Nat) :=
  let k := (sFull.drop ka.toNat).take (kz + 1 - ka).toNat
  let v := (sFull.drop va.toNat).take (vz + 1 - va).toNat
  if v = [78, 85, 76, 76] then m else mapSet m (hsUnesc k) (hsUnesc v)

/-- The parseHStore scan loop.  `bs` is the suffix of `sFull` at index `i`;
`st` is the parser state (0 = waiting-for-key, 1 = in-key, 2 = waiting-for-val,
3 = in-val) and ka/kz/va/vz the key/value slice markers (-1 = unset).  A
backslash skips the following byte in any state.  The NULL lookahead
(s[i+1..i+3], short-circuited) past the end of the input is a runtime fault,
modelled as `none`.  A pair is complete exactly when both kz and vz have just
been set, which happens only in the NULL arm and the in-val closing-quote arm,
where the markers are then consumed and reset. -/
def parseHStoreLoop (sFull : List Nat) : Nat → List Nat → Nat →
    Int → Int → Int → Int → List (List Nat × List Nat) →
    Option (List (List Nat × List Nat))
  | _, [], _, _, _, _, _, m => some m
  | i, b :: bs, st, ka, kz, va, vz, m =>
    if b = 92 then
      match bs with
      | [] => some m
      | _ :: bs2 => parseHStoreLoop sFull (i + 2) bs2 st ka kz va vz m
    else if st = 0 then
      if b = 34 then parseHStoreLoop sFull (i + 1) bs 1 ((i : Int) + 1) kz va vz m
      else parseHStoreLoop sFull (i + 1) bs st ka kz va vz m
    else if st = 1 then
      if b = 34 then parseHStoreLoop sFull (i + 1) bs 2 ka ((i : Int) - 1) va vz m
      else parseHStoreLoop sFull (i + 1) bs st ka kz va vz m
    else if st = 2 then
      if b = 78 then
        match bs with
        | [] => none
        | u :: bs1 =>
          if u = 85 then
            match bs1 with
            | [] => none
            | l1 :: bs2 =>
              if l1 = 76 then
                match bs2 with
                | [] => none
                | l2 :: _ =>
                  if l2 = 76 then
                    parseHStoreLoop sFull (i + 1) bs 0 (-1) (-1) (-1) (-1)
                      (hsEmit sFull ka kz ((i : Int)) ((i : Int) + 3) m)
                  else parseHStoreLoop sFull (i + 1) bs st ka kz va vz m
              else parseHStoreLoop sFull (i + 1) bs st ka kz va vz m
          else parseHStoreLoop sFull (i + 1) bs st ka kz va vz m
      else if b = 34 then parseHStoreLoop sFull (i + 1) bs 3 ka kz ((i : Int) + 1) vz m
      else parseHStoreLoop sFull (i + 1) bs st ka kz va vz m
    else if st = 3 then
      if b = 34 then
        parseHStoreLoop sFull (i + 1) bs 0 (-1) (-1) (-1) (-1)
          (hsEmit sFull ka kz va ((i : Int) - 1) m)
      else parseHStoreLoop sFull (i + 1) bs st ka kz va vz m
    else parseHStoreLoop sFull (i + 1) bs st ka kz va vz m

/-- func parseHStore(s []byte) (map[string]string, error): walk the
`"key" => "value"` grammar.  The Go function never returns a non-nil error;
`none` here models only the out-of-range runtime fault of the NULL lookahead. -/
def parseHStore (s : List Nat) : Option (List (List Nat × List Nat)) :=
  parseHStoreLoop s 0 s 0 (-1) (-1) (-1) (-1) []

/-- type pgHStore struct { m map[string]Value; valid bool }.  Every stored
child is a Text value (created by Text(val), which always succeeds on a
string), so the map carries pgText children. -/
structure pgHStore where
  m : List (List Nat × pgText)
  valid : Bool
deriving DecidableEq, Repr

/-- The decode inputs of pgHStore.Scan: absence, a byte slice to parse, or a
native map[string]string. -/
inductive HSrc where
  | null
  | bytes (b : List Nat)
  | strmap (kvs : List (List Nat × List Nat))
deriving DecidableEq

/-- func (k *pgHStore) Scan(src interface{}) error: the map is reset before
the nil check, so a nil input leaves an empty (not stale) map in NULL state;
each parsed value is wrapped in a freshly scanned Text value. -/
def pgHStoreScan (k : pgHStore) (src : HSrc) : Option (pgHStore × Option PgError) :=
  match src with
  | .null => some ({ m := [], valid := false }, none)
  | .bytes b =>
    match parseHStore b with
    | none => none
    | some kvs =>
      some ({ m := kvs.map (fun kv => (kv.1, (pgTextScan newText (.str kv.2)).1)),
              valid := true }, none)
  | .strmap kvs =>
    some ({ m := kvs.map (fun kv => (kv.1, (pgTextScan newText (.str kv.2)).1)),
            valid := true }, none)

/-- func (k *pgHStore) IsNull() bool -/
def pgHStoreIsNull (k : pgHStore) : Bool := !k.valid

/-- func (k *pgHStore) ValueBy(name string) Value: the stored child, or nil
(here: none) when the key is absent. -/
def pgHStoreValueBy (k : pgHStore) (name : List Nat) : Option pgText :=
  match k.m.find? (fun kv => kv.1 == name) with
  | some kv => some kv.2
  | none => none

/-- func (k *pgHStore) Val() interface{}: nil when NULL, else the map of
native strings (every child was built by a successful Text scan, so its
Val() is its stored string). -/
def pgHStoreVal (k : pgHStore) : Option (List (List Nat × List Nat)) :=
  if !k.valid then none else some (k.m.map (fun kv => (kv.1, kv.2.s)))

/-- fmt.Sprintf(`"%s" => "%s"`, key, val) for one entry of pgHStore.bytes();
%v of the child Value prints via its String method. -/
def hsEntryBytes (kv : List Nat × pgText) : List Nat :=
  [34] ++ kv.1 ++ [34, 32, 61, 62, 32, 34] ++ pgTextString kv.2 ++ [34]

/-- func (k *pgHStore) bytes() ([]byte, error): the comma-join of the entries.
Unlike the scalar types this does NOT special-case NULL — after Scan(nil) the
map is empty, so bytes() yields the empty byte string, not the NULL sentinel. -/
def pgHStoreBytesAcc (k : pgHStore) : List Nat :=
  List.intercalate [44] (k.m.map hsEntryBytes)

/-- func (k *pgHStore) String() string: empty when NULL, else bytes(). -/
def pgHStoreString (k : pgHStore) : List Nat :=
  if !k.valid then [] else pgHStoreBytesAcc k

/-- func (k *pgHStore) Value() (driver.Value, error): the NULL sentinel when
NULL, else bytes(). -/
def pgHStoreValueAcc (k : pgHStore) : List Nat :=
  if !k.valid then nullBytes else pgHStoreBytesAcc k

/-- type col: the column descriptor of a Record; only the name participates in
field lookup (the catalog metadata fields typ/oid/refT/refF/pk/notNull do not). -/
structure col where
  name : List Nat
deriving DecidableEq, Repr

/-- The lookup loop of pgRecord.ValueBy: walk the declared columns and the
child values in lockstep, returning the child at the first column whose name
matches, or nil (none) when no declared column matches.  (The Record
constructor always builds exactly one child per column.) -/
def valueBy {V : Type} : List col → List V → List Nat → Option V
  | c :: cs, v :: vs, name =>
    if c.name = name then some v else valueBy cs vs name
  | _, _, _ => none

/-- type pgRecord struct { vs []Value; cs []*col; valid bool; rel *Relation };
the child type is a parameter since lookup is independent of it, and the
relation back-reference does not affect lookup. -/
structure pgRecord (V : Type) where
  vs : List V
  cs : List col
  valid : Bool

/-- func (k *pgRecord) ValueBy(name string) Value -/
def pgRecordValueBy {V : Type} (k : pgRecord V) (name : List Nat) : Option V :=
  valueBy k.cs k.vs name

/-- Per-byte form of the array-dialect escaper: `\` ↦ `\\`, `"` ↦ `\"`. -/
def escByte1 (b : Nat) : List Nat :=
  if b = 92 then [92, 92] else if b = 34 then [92, 34] else [b]

/-- The array-dialect escaper as a byte-wise map (shown equal to escape · 1). -/
def escAll1 : List Nat → List Nat
  | [] => []
  | b :: t => escByte1 b ++ escAll1 t

/-- Per-byte form of the row-dialect escaper: `\` ↦ `\\`, `"` ↦ `""`. -/
def escByte2 (b : Nat) : List Nat :=
  if b = 92 then [92, 92] else if b = 34 then [34, 34] else [b]

/-- The row-dialect escaper as a byte-wise map (shown equal to escape · 2). -/
def escAll2 : List Nat → List Nat
  | [] => []
  | b :: t => escByte2 b ++ escAll2 t

/-- The intermediate form after the `\\` → `\` unescape pass over an
array-escaped string: only quotes remain escaped. -/
def gByte1 (b : Nat) : List Nat := if b = 34 then [92, 34] else [b]

/-- Byte-wise map of gByte1. -/
def gAll1 : List Nat → List Nat
  | [] => []
  | b :: t => gByte1 b ++ gAll1 t

/-- The intermediate form after the `\\` → `\` unescape pass over a
row-escaped string: only quote doubling remains. -/
def gByte2 (b : Nat) : List Nat := if b = 34 then [34, 34] else [b]

/-- Byte-wise map of gByte2. -/
def gAll2 : List Nat → List Nat
  | [] => []
  | b :: t => gByte2 b ++ gAll2 t

/-- The hstore test literal `"k1" => "v1", "k\"2" => "\"v2\"", "k3" => NULL`
as bytes. -/
def hsInput : List Nat :=
  [34, 107, 49, 34, 32, 61, 62, 32, 34, 118, 49, 34, 44, 32,
   34, 107, 92, 34, 50, 34, 32, 61, 62, 32, 34, 92, 34, 118, 50, 92, 34, 34, 44, 32,
   34, 107, 51, 34, 32, 61, 62, 32, 78, 85, 76, 76]

/-- The decoded hstore state expected for hsInput: k1 ↦ v1, k"2 ↦ "v2",
and no entry at all for k3. -/
def hsExpected : pgHStore :=
  ⟨[([107, 49], ⟨[118, 49], 0, false, true⟩),
    ([107, 34, 50], ⟨[34, 118, 50, 34], 0, false, true⟩)], true⟩

/-- The record of the spec example ROW('jeff', 53) with columns name, age —
children abstracted to their positions (lookup is child-type-agnostic). -/
def jeffRecord : pgRecord Int :=
  ⟨[7, 53], [⟨[110, 97, 109, 101]⟩, ⟨[97, 103, 101]⟩], true⟩

/-- Additional fmt.Errorf sites used by the remaining codecs. -/
inductive PgError2 where
  /-- fmt.Errorf("Value should be one of %s got %s", join(k.ls), s) in
  pgEnum.Scan; the local s it interpolates is declared but never assigned,
  so the reported got-string is always empty -/
  | enumBadLabel (ls : List (List Nat)) (got : List Nat)
  /-- fmt.Errorf("Number of input values does not match number of Row
  columns...") in rowScanner, native-sequence arm -/
  | rowArity (need got : Nat)
  /-- fmt.Errorf("Number of input columns does not match number of Row
  columns...") in rowScanner, byte-sequence arm -/
  | rowParts (need got : Nat) (parts : List (List Nat))
  /-- an error produced by a child value's Scan, or by split -/
  | child (e : PgError)
deriving DecidableEq

/-- type pgTimestamp struct { t time.Time; tz string; valid bool }.  The time
representation is a type parameter T (time.Time is stdlib-opaque); Scan sets
valid before storing or parsing, which is all the NULL-state facts rest on. -/
structure pgTimestamp (T : Type) where
  t : T
  tz : List Nat
  valid : Bool

/-- The decode inputs of pgTimestamp.Scan: absence, a native time value, or a
string/byte-sequence handed to parseTime. -/
inductive TimestampSrc (T : Type) where
  | null
  | time (x : T)
  | str (s : List Nat)
  | bytes (b : List Nat)

/-- func (k *pgTimestamp) Scan(src interface{}) error.  parseTime (an ordered
list of stdlib time.Parse attempts, plus an unconditional read of
s[len(s)-2] that faults on inputs shorter than two bytes) is abstracted as
the parameter `parse`, returning the written time and optional error, or none
for the runtime fault; Scan has already set valid=true when it runs. -/
def pgTimestampScan {T : Type} (parse : List Nat → Option (T × Option PgError2))
    (k : pgTimestamp T) (src : TimestampSrc T) :
    Option (pgTimestamp T × Option PgError2) :=
  match src with
  | .null => some ({ k with valid := false }, none)
  | .time x => some ({ k with t := x, valid := true }, none)
  | .str s | .bytes s =>
    match parse s with
    | none => none
    | some r => some ({ k with t := r.1, valid := true }, r.2)

/-- func (k *pgTimestamp) Val() interface{}: nil when NULL, else the time. -/
def pgTimestampVal {T : Type} (k : pgTimestamp T) : Option T :=
  if !k.valid then none else some k.t

/-- func (k *pgTimestamp) String() string: empty when NULL, else
t.Format(time.RFC3339Nano), abstracted as the parameter fmtT. -/
def pgTimestampString {T : Type} (fmtT : T → List Nat) (k : pgTimestamp T) : List Nat :=
  if !k.valid then [] else fmtT k.t

/-- func (k *pgTimestamp) bytes() ([]byte, error): the NULL sentinel when
NULL, else the RFC3339Nano rendering. -/
def pgTimestampBytes {T : Type} (fmtT : T → List Nat) (k : pgTimestamp T) : List Nat :=
  if !k.valid then nullBytes else fmtT k.t

/-- type pgEnum struct { s string; ls []string; valid bool } -/
structure pgEnum where
  s : List Nat
  ls : List (List Nat)
  valid : Bool
deriving DecidableEq

/-- The decode inputs of pgEnum.Scan: absence, string or byte slice. -/
inductive EnumSrc where
  | null
  | str (x : List Nat)
  | bytes (x : List Nat)
deriving DecidableEq

/-- func (k *pgEnum) Scan(src interface{}) error: nil sets NULL; otherwise
the value is stored (valid already true) and then checked against the labels;
a value not among them is an error whose message interpolates a never-assigned
local, hence the empty got-string. -/
def pgEnumScan (k : pgEnum) (src : EnumSrc) : pgEnum × Option PgError2 :=
  match src with
  | .null => ({ k with valid := false }, none)
  | .str x | .bytes x =>
    let k := { k with s := x, valid := true }
    if k.ls.contains x then (k, none)
    else (k, some (.enumBadLabel k.ls []))

/-- func (k *pgEnum) Val() interface{}: nil when NULL, else the label. -/
def pgEnumVal (k : pgEnum) : Option (List Nat) :=
  if !k.valid then none else some k.s

/-- func (k *pgEnum) String() string: empty when NULL. -/
def pgEnumString (k : pgEnum) : List Nat :=
  if !k.valid then [] else k.s

/-- func (k *pgEnum) bytes() ([]byte, error): the NULL sentinel when NULL. -/
def pgEnumBytes (k : pgEnum) : List Nat :=
  if !k.valid then nullBytes else k.s

/-- type pgNumeric struct { s string; prec int; scale int; valid bool } -/
structure pgNumeric where
  s : List Nat
  prec : Int
  scale : Int
  valid : Bool
deriving DecidableEq

/-- The decode inputs of pgNumeric.Scan modelled here: absence, string or
byte slice (stored verbatim); the float arms, which store a FormatFloat
rendering at scale fractional digits, also set valid=true first but are not
needed by any claim. -/
inductive NumericSrc where
  | null
  | str (x : List Nat)
  | bytes (x : List Nat)
deriving DecidableEq

/-- func (k *pgNumeric) Scan(src interface{}) error -/
def pgNumericScan (k : pgNumeric) (src : NumericSrc) : pgNumeric × Option PgError2 :=
  match src with
  | .null => ({ k with valid := false }, none)
  | .str x | .bytes x => ({ k with s := x, valid := true }, none)

/-- func (k *pgNumeric) Val() interface{}: nil when NULL, else the string. -/
def pgNumericVal (k : pgNumeric) : Option (List Nat) :=
  if !k.valid then none else some k.s

/-- func (k *pgNumeric) String() string: empty when NULL. -/
def pgNumericString (k : pgNumeric) : List Nat :=
  if !k.valid then [] else k.s

/-- func (k *pgNumeric) bytes() ([]byte, error): the NULL sentinel when NULL. -/
def pgNumericBytes (k : pgNumeric) : List Nat :=
  if !k.valid then nullBytes else k.s

/-- type pgBytea struct { b []byte; valid bool } -/
structure pgBytea where
  b : List Nat
  valid : Bool
deriving DecidableEq

/-- The decode inputs of pgBytea.Scan: absence or a byte slice (the only
accepted non-nil kind). -/
inductive ByteaSrc where
  | null
  | bytes (x : List Nat)
deriving DecidableEq

/-- func (k *pgBytea) Scan(src interface{}) error -/
def pgByteaScan (k : pgBytea) (src : ByteaSrc) : pgBytea × Option PgError2 :=
  match src with
  | .null => ({ k with valid := false }, none)
  | .bytes x => ({ k with b := x, valid := true }, none)

/-- A lowercase hex digit byte (0-9, a-f). -/
def hexDigitChar (n : Nat) : Nat := if n < 10 then 48 + n else 87 + n

/-- fmt.Sprintf("%x", b) for a byte slice: two lowercase hex digits per byte. -/
def hexEncode : List Nat → List Nat
  | [] => []
  | c :: r => hexDigitChar (c / 16) :: hexDigitChar (c % 16) :: hexEncode r

/-- func (k *pgBytea) Val() interface{}: nil when NULL, else the bytes. -/
def pgByteaVal (k : pgBytea) : Option (List Nat) :=
  if !k.valid then none else some k.b

/-- func (k *pgBytea) String() string: empty when NULL, else the raw bytes. -/
def pgByteaString (k : pgBytea) : List Nat :=
  if !k.valid then [] else k.b

/-- func (k *pgBytea) bytes() ([]byte, error): the NULL sentinel when NULL,
else the \x-prefixed lowercase-hex literal fmt.Sprintf("\\x%x", k.b). -/
def pgByteaBytes (k : pgBytea) : List Nat :=
  if !k.valid then nullBytes else 92 :: 120 :: hexEncode k.b

/-- The non-nil decode inputs shared by Row/Record/Array Scan: a native
sequence of element inputs, or a byte-sequence/string run through split.  The
element input type El and the child Scan operations are parameters, since the
children are arbitrary Values. -/
inductive RowBody (El : Type) where
  | items (xs : List El)
  | bytes (b : List Nat)
  | str (s : List Nat)

/-- The per-child loop of rowScanner: scan each destination child with the
matching input, stopping at the first error; children before the failure stay
updated, children after it stay untouched (the documented no-rollback
contract). -/
def rowScanChildren {V El : Type} (ch : V → El → V × Option PgError2) :
    List V → List El → List V × Option PgError2
  | [], _ => ([], none)
  | v :: vs, [] => (v :: vs, none)
  | v :: vs, x :: xs =>
    match ch v x with
    | (v', none) =>
      let r := rowScanChildren ch vs xs
      (v' :: r.1, r.2)
    | (v', some e) => (v' :: vs, some e)

/-- func rowScanner(src interface{}, dests []Value) error: a native sequence
must match the arity exactly, a byte sequence is tokenized by split and its
part count must match; then each child is scanned in position order.  chN
scans a child from a native element input, chB from a tokenized byte slice. -/
def rowScanner {V El : Type} (chN : V → El → V × Option PgError2)
    (chB : V → List Nat → V × Option PgError2)
    (body : RowBody El) (dests : List V) : List V × Option PgError2 :=
  match body with
  | .items xs =>
    if dests.length ≠ xs.length then (dests, some (.rowArity dests.length xs.length))
    else rowScanChildren chN dests xs
  | .bytes b | .str b =>
    match split b with
    | .error e => (dests, some (.child e))
    | .ok parts =>
      if parts.length ≠ dests.length then
        (dests, some (.rowParts dests.length parts.length parts))
      else rowScanChildren chB dests parts

/-- type pgRow struct { vs []Value; valid bool } -/
structure pgRow (V : Type) where
  vs : List V
  valid : Bool

/-- func (k *pgRow) Scan(src interface{}) error: nil sets NULL (children are
kept, not reset); any other input sets valid=true and delegates to
rowScanner. -/
def pgRowScan {V El : Type} (chN : V → El → V × Option PgError2)
    (chB : V → List Nat → V × Option PgError2)
    (k : pgRow V) (src : Option (RowBody El)) : pgRow V × Option PgError2 :=
  match src with
  | none => ({ k with valid := false }, none)
  | some body =>
    let r := rowScanner chN chB body k.vs
    ({ vs := r.1, valid := true }, r.2)

/-- func rowBytes(valid bool, vs []Value): the NULL sentinel when NULL, else
the (…)-wrapped comma join where numeric/boolean children print bare and all
others are quoted and row-dialect escaped.  childBytes is the child's bytes
method and isBare the *pgNumeric/*pgInteger/*pgFloat/*pgBool type switch. -/
def rowBytes {V : Type} (childBytes : V → List Nat) (isBare : V → Bool)
    (valid : Bool) (vs : List V) : List Nat :=
  if !valid then nullBytes
  else
    40 :: (List.intercalate [44] (vs.map (fun v =>
      if isBare v then childBytes v else [34] ++ escape (childBytes v) 2 ++ [34]))) ++ [41]

/-- func (k *pgRow) Val() interface{}: nil when NULL, else the children's
native forms (the child Val method is the parameter f). -/
def pgRowVal {V α : Type} (f : V → α) (k : pgRow V) : Option (List α) :=
  if !k.valid then none else some (k.vs.map f)

/-- func (k *pgRow) String() string: empty when NULL, else bytes(). -/
def pgRowString {V : Type} (childBytes : V → List Nat) (isBare : V → Bool)
    (k : pgRow V) : List Nat :=
  if !k.valid then [] else rowBytes childBytes isBare true k.vs

/-- func (k *pgRow) bytes() ([]byte, error): rowBytes of the valid flag. -/
def pgRowBytes {V : Type} (childBytes : V → List Nat) (isBare : V → Bool)
    (k : pgRow V) : List Nat :=
  rowBytes childBytes isBare k.valid k.vs

/-- func (k *pgRecord) Scan(src interface{}) error: identical mechanics to
pgRow.Scan (the columns and relation back-reference are untouched). -/
def pgRecordScan {V El : Type} (chN : V → El → V × Option PgError2)
    (chB : V → List Nat → V × Option PgError2)
    (k : pgRecord V) (src : Option (RowBody El)) : pgRecord V × Option PgError2 :=
  match src with
  | none => ({ k with valid := false }, none)
  | some body =>
    let r := rowScanner chN chB body k.vs
    ({ k with vs := r.1, valid := true }, r.2)

/-- func (k *pgRecord) Val() interface{}: nil when NULL, else the children's
native forms. -/
def pgRecordVal {V α : Type} (f : V → α) (k : pgRecord V) : Option (List α) :=
  if !k.valid then none else some (k.vs.map f)

/-- func (k *pgRecord) String() string: empty when NULL, else bytes(). -/
def pgRecordString {V : Type} (childBytes : V → List Nat) (isBare : V → Bool)
    (k : pgRecord V) : List Nat :=
  if !k.valid then [] else rowBytes childBytes isBare true k.vs

/-- func (k *pgRecord) bytes() ([]byte, error) = rowBytes(k.valid, k.vs). -/
def pgRecordBytes {V : Type} (childBytes : V → List Nat) (isBare : V → Bool)
    (k : pgRecord V) : List Nat :=
  rowBytes childBytes isBare k.valid k.vs

/-- type pgArray struct { vs []Value; el ToValue; valid bool }; the captured
element constructor is abstracted into the element decoders of Scan. -/
structure pgArray (V : Type) where
  vs : List V
  valid : Bool

/-- The append loop of pgArray.Scan: each input builds a fresh child via the
element constructor and scans it (the parameter elDec); a failing element is
not appended and stops the loop with its error. -/
def arrayAppendAll {V El : Type} (elDec : El → V × Option PgError2) :
    List El → List V → List V × Option PgError2
  | [], acc => (acc, none)
  | x :: xs, acc =>
    match elDec x with
    | (v, none) => arrayAppendAll elDec xs (acc ++ [v])
    | (_, some e) => (acc, some e)

/-- func (k *pgArray) Scan(src interface{}) (err error): the child list is
reset BEFORE the nil check, so Scan(nil) leaves an empty child list in NULL
state; any other input sets valid=true, then appends each native element or
each split-produced part through the element constructor. -/
def pgArrayScan {V El : Type} (elDecN : El → V × Option PgError2)
    (elDecB : List Nat → V × Option PgError2)
    (k : pgArray V) (src : Option (RowBody El)) : pgArray V × Option PgError2 :=
  match src with
  | none => ({ vs := [], valid := false }, none)
  | some (.items xs) =>
    let r := arrayAppendAll elDecN xs []
    ({ vs := r.1, valid := true }, r.2)
  | some (.bytes b) | some (.str b) =>
    match split b with
    | .error e => ({ vs := [], valid := true }, some (.child e))
    | .ok parts =>
      let r := arrayAppendAll elDecB parts []
      ({ vs := r.1, valid := true }, r.2)

/-- func (k *pgArray) bytes() ([]byte, error): the NULL sentinel when NULL,
else the {…}-wrapped comma join; the bare set additionally contains *pgArray
and *pgTimestamp, and quoted children use the array dialect. -/
def arrayBytes {V : Type} (childBytes : V → List Nat) (isBareArr : V → Bool)
    (valid : Bool) (vs : List V) : List Nat :=
  if !valid then nullBytes
  else
    123 :: (List.intercalate [44] (vs.map (fun v =>
      if isBareArr v then childBytes v else [34] ++ escape (childBytes v) 1 ++ [34]))) ++ [125]

/-- func (k *pgArray) Val() interface{}: nil when NULL, else the children's
native forms. -/
def pgArrayVal {V α : Type} (f : V → α) (k : pgArray V) : Option (List α) :=
  if !k.valid then none else some (k.vs.map f)

/-- func (k *pgArray) String() string: empty when NULL, else bytes(). -/
def pgArrayString {V : Type} (childBytes : V → List Nat) (isBareArr : V → Bool)
    (k : pgArray V) : List Nat :=
  if !k.valid then [] else arrayBytes childBytes isBareArr true k.vs

/-- func (k *pgArray) bytes() as an accessor of the state. -/
def pgArrayBytes {V : Type} (childBytes : V → List Nat) (isBareArr : V → Bool)
    (k : pgArray V) : List Nat :=
  arrayBytes childBytes isBareArr k.valid k.vs

/-- C2 (counterexample): decoding the native integer -40000 into SmallInt
succeeds even though -40000 is far below the signed 16-bit range, refuting the
claim that values outside the signed range below are rejected. -/
theorem intScan_no_lower_bound_check :
    pgIntegerScan (newInt 16) (.int (-40000))
      = ({ n := -40000, bs := 16, valid := true }, none)
    ∧ (-40000 : Int) < -32768 := by
  exact ⟨rfl, by decide⟩

/-- C2 (amended): decoding a native signed integer v into SmallInt or Integer
succeeds exactly when v is strictly below the signed maximum of the width —
the exact maximum is rejected and there is no lower-bound check at all — and
BigInt accepts every native signed integer unconditionally; the accepted value
is stored unchanged. -/
theorem intScan_succeeds_iff_below_max (v : Int)
    (h : -(2 ^ 63) ≤ v ∧ v < 2 ^ 63) :
    ((pgIntegerScan (newInt 16) (.int v)).2 = none ↔ v < 32767)
    ∧ ((pgIntegerScan (newInt 32) (.int v)).2 = none ↔ v < 2147483647)
    ∧ pgIntegerScan (newInt 64) (.int v) = ({ n := v, bs := 64, valid := true }, none)
    ∧ (v < 32767 →
        pgIntegerScan (newInt 16) (.int v) = ({ n := v, bs := 16, valid := true }, none)) := by
  refine ⟨?_, ?_, ?_, ?_⟩
  · by_cases hv : v < 32767 <;> simp [pgIntegerScan, newInt, fitInt, hv]
  · by_cases hv : v < 2147483647 <;> simp [pgIntegerScan, newInt, fitInt, hv]
  · simp [pgIntegerScan, newInt, fitInt]
  · intro hv; simp [pgIntegerScan, newInt, fitInt, hv]

/-- C2 (witness): the amended statement applied at v = 5. -/
theorem intScan_succeeds_iff_below_max_witness :
    (-(2 ^ 63) ≤ (5 : Int) ∧ (5 : Int) < 2 ^ 63)
    ∧ ((pgIntegerScan (newInt 16) (.int 5)).2 = none ↔ (5 : Int) < 32767) :=
  ⟨by decide, (intScan_succeeds_iff_below_max 5 (by decide)).1⟩

/-- C3 (counterexample): decoding the native integer 32767 — the exact signed
16-bit maximum — into SmallInt is rejected by the strict fits check, refuting
the claim that 32767 decodes successfully regardless of input form. -/
theorem intScan_exact_max_native_rejected :
    pgIntegerScan (newInt 16) (.int 32767)
      = ({ n := 0, bs := 16, valid := true }, some (.cannotFitInt 32767 16)) := rfl

/-- C3 (amended): decoding 40000 into SmallInt fails on both paths — the
native path with an error naming int16, the string path with the strconv
range error that names the input but not the width — while 32767 succeeds
on the string/byte path but is erroneously rejected as a native integer. -/
theorem intScan_40000_and_32767 :
    pgIntegerScan (newInt 16) (.int 40000)
      = ({ n := 0, bs := 16, valid := true }, some (.cannotFitInt 40000 16))
    ∧ pgIntegerScan (newInt 16) (.str [52, 48, 48, 48, 48])
      = ({ n := 32767, bs := 16, valid := true },
         some (.parseIntRange [52, 48, 48, 48, 48]))
    ∧ pgIntegerScan (newInt 16) (.str [51, 50, 55, 54, 55])
      = ({ n := 32767, bs := 16, valid := true }, none)
    ∧ pgIntegerScan (newInt 16) (.bytes [51, 50, 55, 54, 55])
      = ({ n := 32767, bs := 16, valid := true }, none)
    ∧ (pgIntegerScan (newInt 16) (.int 32767)).2 = some (.cannotFitInt 32767 16) :=
  ⟨rfl, rfl, rfl, rfl, rfl⟩

/-- C4 (counterexample): VarChar(0) decoding the two-byte string BB leaves it
untouched even though it is longer than the declared width 0, refuting the
claim that VarChar(n) truncates to the first n bytes whenever the input is
longer, for every declared width n. -/
theorem varcharZero_no_truncation :
    pgTextScan (newVarChar 0) (.str [66, 66])
      = ({ s := [66, 66], n := 0, p := false, valid := true }, none)
    ∧ (0 : Int) < (([66, 66] : List Nat).length : Int)
    ∧ ([66, 66] : List Nat).take (0 : Nat) ≠ [66, 66] := by
  exact ⟨rfl, by decide, by decide⟩

/-- C4 (amended): Char(n) trims trailing spaces, succeeds exactly when the
trimmed length is at most n, and a successful decode stores a string of length
exactly n; VarChar(n) with positive n never errors and truncates to the first
n bytes exactly when the input is longer (width 0 disables truncation); Text
stores the input unchanged. -/
theorem textScan_width_semantics (s : List Nat) (n : Int) :
    ((pgTextScan (newChar n) (.str s)).2 = none
      ↔ ((trimRightSpace s).length : Int) ≤ n)
    ∧ ((pgTextScan (newChar n) (.str s)).2 = none →
        (((pgTextScan (newChar n) (.str s)).1.s.length : Int) = n))
    ∧ (1 ≤ n →
        (pgTextScan (newVarChar n) (.str s)).2 = none
        ∧ (pgTextScan (newVarChar n) (.str s)).1.s
            = if (s.length : Int) > n then s.take n.toNat else s)
    ∧ pgTextScan newText (.str s) = ({ s := s, n := 0, p := false, valid := true }, none) := by
  refine ⟨?_, ?_, ?_, ?_⟩
  · simp only [pgTextScan, newChar]
    split_ifs with h1 h2 <;> simp <;> omega
  · intro hok
    by_cases h1 : ((trimRightSpace s).length : Int) > n
    · exfalso
      simp [pgTextScan, newChar, h1] at hok
    · by_cases h2 : ((trimRightSpace s).length : Int) < n
      · simp [pgTextScan, newChar, h1, h2]
        omega
      · simp [pgTextScan, newChar, h1, h2]
        omega
  · intro hn
    by_cases h1 : (s.length : Int) > n
    · have hc : n > 0 ∧ (s.length : Int) > n := ⟨by omega, h1⟩
      constructor
      · simp [pgTextScan, newVarChar, hc]
      · simp [pgTextScan, newVarChar, hc, h1]
    · constructor
      · simp [pgTextScan, newVarChar, h1]
      · simp [pgTextScan, newVarChar, h1]
  · simp [pgTextScan, newText]

/-- C4 (witness): the amended statement applied to Char(1) with D and
VarChar(1) with BB. -/
theorem textScan_width_semantics_witness :
    (((pgTextScan (newChar 1) (.str [68])).1.s.length : Int) = 1)
    ∧ (pgTextScan (newVarChar 1) (.str [66, 66])).1.s
        = (if (([66, 66] : List Nat).length : Int) > 1 then [66, 66].take (1 : Int).toNat
           else [66, 66]) :=
  ⟨(textScan_width_semantics [68] 1).2.1 (by decide),
   ((textScan_width_semantics [66, 66] 1).2.2.1 (by decide)).2⟩

/-- C5 (counterexample): after Scan(nil) the SmallInt value is NULL, but a
subsequent FAILED decode of the non-numeric string abc clears the NULL state
even though no successful decode ever overwrote it, refuting the claim that
NULL persists until the next successful decode. -/
theorem nullState_cleared_by_failed_decode :
    pgIntegerIsNull (pgIntegerScan (newInt 16) .null).1 = true
    ∧ (pgIntegerScan (pgIntegerScan (newInt 16) .null).1 (.str [97, 98, 99])).2
        = some (.parseIntSyntax [97, 98, 99])
    ∧ pgIntegerIsNull
        (pgIntegerScan (pgIntegerScan (newInt 16) .null).1 (.str [97, 98, 99])).1 = false := by
  exact ⟨rfl, rfl, rfl⟩

/-- C5 (amended): for every value codec in the system — Integer, Text, Bool,
Float, HStore, Timestamp, Enum, Numeric, Bytea, Array, Row and Record —
decoding absence always succeeds and sets the NULL state; while NULL, Val
yields none, String the empty string, and the wire-facing accessor the NULL
sentinel (for HStore that accessor is the driver Value method — its bytes
method yields the empty string since the map is reset); and the NULL state
persists only until the NEXT DECODE ATTEMPT with non-nil input: any such
attempt, successful or not, marks the value non-NULL. -/
theorem null_decode_and_accessors
    (ki : pgInteger) (kt : pgText) (kb : pgBool) (kf : pgFloat) (kh : pgHStore) :
    pgIntegerScan ki .null = ({ ki with valid := false }, none)
    ∧ pgTextScan kt .null = ({ kt with valid := false }, none)
    ∧ pgBoolScan kb .null = some ({ kb with valid := false }, none)
    ∧ pgFloatScan kf .null = ({ kf with valid := false }, none)
    ∧ pgHStoreScan kh .null = some (⟨[], false⟩, none)
    ∧ (ki.valid = false →
        pgIntegerVal ki = none ∧ pgIntegerString ki = [] ∧ pgIntegerBytes ki = nullBytes)
    ∧ (kt.valid = false →
        pgTextVal kt = none ∧ pgTextString kt = [] ∧ pgTextBytes kt = nullBytes)
    ∧ (kb.valid = false →
        pgBoolVal kb = none ∧ pgBoolString kb = [] ∧ pgBoolBytes kb = nullBytes)
    ∧ (kf.valid = false →
        pgFloatVal kf = none ∧ pgFloatString kf = .lit [] ∧ pgFloatBytes kf = .lit nullBytes)
    ∧ (kh.valid = false →
        pgHStoreVal kh = none ∧ pgHStoreString kh = []
        ∧ pgHStoreValueAcc kh = nullBytes
        ∧ (kh.m = [] → pgHStoreBytesAcc kh = []))
    ∧ (∀ src, src ≠ IntSrc.null → (pgIntegerScan ki src).1.valid = true)
    ∧ (∀ src, src ≠ TextSrc.null → (pgTextScan kt src).1.valid = true)
    ∧ (∀ src r, src ≠ BoolSrc.null → pgBoolScan kb src = some r → r.1.valid = true)
    ∧ (∀ src, src ≠ FloatSrc.null → (pgFloatScan kf src).1.valid = true)
    ∧ (∀ src r, src ≠ HSrc.null → pgHStoreScan kh src = some r → r.1.valid = true)
    ∧ (∀ (T : Type) (parse : List Nat → Option (T × Option PgError2))
          (kts : pgTimestamp T),
        pgTimestampScan parse kts .null = some ({ kts with valid := false }, none)
        ∧ (kts.valid = false → ∀ fmtT : T → List Nat,
            pgTimestampVal kts = none ∧ pgTimestampString fmtT kts = []
            ∧ pgTimestampBytes fmtT kts = nullBytes)
        ∧ (∀ src r, src ≠ TimestampSrc.null → pgTimestampScan parse kts src = some r →
            r.1.valid = true))
    ∧ (∀ ke : pgEnum,
        pgEnumScan ke .null = ({ ke with valid := false }, none)
        ∧ (ke.valid = false →
            pgEnumVal ke = none ∧ pgEnumString ke = [] ∧ pgEnumBytes ke = nullBytes)
        ∧ (∀ src, src ≠ EnumSrc.null → (pgEnumScan ke src).1.valid = true))
    ∧ (∀ kn : pgNumeric,
        pgNumericScan kn .null = ({ kn with valid := false }, none)
        ∧ (kn.valid = false →
            pgNumericVal kn = none ∧ pgNumericString kn = [] ∧ pgNumericBytes kn = nullBytes)
        ∧ (∀ src, src ≠ NumericSrc.null → (pgNumericScan kn src).1.valid = true))
    ∧ (∀ kby : pgBytea,
        pgByteaScan kby .null = ({ kby with valid := false }, none)
        ∧ (kby.valid = false →
            pgByteaVal kby = none ∧ pgByteaString kby = [] ∧ pgByteaBytes kby = nullBytes)
        ∧ (∀ src, src ≠ ByteaSrc.null → (pgByteaScan kby src).1.valid = true))
    ∧ (∀ (V El : Type) (dN : El → V × Option PgError2)
          (dB : List Nat → V × Option PgError2) (ka : pgArray V),
        pgArrayScan dN dB ka none = ({ vs := [], valid := false }, none)
        ∧ (ka.valid = false →
            ∀ (α : Type) (f : V → α) (cb : V → List Nat) (bare : V → Bool),
            pgArrayVal f ka = none ∧ pgArrayString cb bare ka = []
            ∧ pgArrayBytes cb bare ka = nullBytes)
        ∧ (∀ body, (pgArrayScan dN dB ka (some body)).1.valid = true))
    ∧ (∀ (V El : Type) (chN : V → El → V × Option PgError2)
          (chB : V → List Nat → V × Option PgError2) (kr : pgRow V),
        pgRowScan chN chB kr none = ({ kr with valid := false }, none)
        ∧ (kr.valid = false →
            ∀ (α : Type) (f : V → α) (cb : V → List Nat) (bare : V → Bool),
            pgRowVal f kr = none ∧ pgRowString cb bare kr = []
            ∧ pgRowBytes cb bare kr = nullBytes)
        ∧ (∀ body, (pgRowScan chN chB kr (some body)).1.valid = true))
    ∧ (∀ (V El : Type) (chN : V → El → V × Option PgError2)
          (chB : V → List Nat → V × Option PgError2) (kc : pgRecord V),
        pgRecordScan chN chB kc none = ({ kc with valid := false }, none)
        ∧ (kc.valid = false →
            ∀ (α : Type) (f : V → α) (cb : V → List Nat) (bare : V → Bool),
            pgRecordVal f kc = none ∧ pgRecordString cb bare kc = []
            ∧ pgRecordBytes cb bare kc = nullBytes)
        ∧ (∀ body, (pgRecordScan chN chB kc (some body)).1.valid = true)) := by
  refine ⟨rfl, rfl, rfl, rfl, rfl, ?_, ?_, ?_, ?_, ?_, ?_, ?_, ?_, ?_, ?_,
    ?_, ?_, ?_, ?_, ?_, ?_, ?_⟩
  · intro hv
    simp [pgIntegerVal, pgIntegerString, pgIntegerBytes, hv]
  · intro hv
    simp [pgTextVal, pgTextString, pgTextBytes, hv]
  · intro hv
    simp [pgBoolVal, pgBoolString, pgBoolBytes, hv]
  · intro hv
    simp [pgFloatVal, pgFloatString, pgFloatBytes, hv]
  · intro hv
    refine ⟨by simp [pgHStoreVal, hv], by simp [pgHStoreString, hv],
      by simp [pgHStoreValueAcc, hv], ?_⟩
    intro hm
    simp [pgHStoreBytesAcc, hm, List.intercalate]
  · intro src hsrc
    cases src with
    | null => exact absurd rfl hsrc
    | int v =>
      simp only [pgIntegerScan]
      cases fitInt v ki.bs <;> rfl
    | bytes b => rfl
    | str s => rfl
  · intro src hsrc
    cases src with
    | null => exact absurd rfl hsrc
    | str x | bytes x =>
      simp only [pgTextScan]
      split_ifs <;> rfl
  · intro src r hsrc hr
    cases src with
    | null => exact absurd rfl hsrc
    | str s =>
      cases s with
      | nil => exact absurd hr (by simp [pgBoolScan])
      | cons c rest =>
        simp [pgBoolScan] at hr
        simp [← hr]
    | int v =>
      simp [pgBoolScan] at hr
      simp [← hr]
    | bytes bt =>
      cases bt with
      | nil => exact absurd hr (by simp [pgBoolScan])
      | cons c rest =>
        simp [pgBoolScan] at hr
        simp [← hr]
    | bool x =>
      simp [pgBoolScan] at hr
      simp [← hr]
  · intro src hsrc
    cases src with
    | null => exact absurd rfl hsrc
    | f64 x =>
      simp only [pgFloatScan]
      split <;> rfl
  · intro src r hsrc hr
    cases src with
    | null => exact absurd rfl hsrc
    | bytes b =>
      simp only [pgHStoreScan] at hr
      cases hpb : parseHStore b with
      | none => rw [hpb] at hr; exact absurd hr (by simp)
      | some kvs =>
        rw [hpb] at hr
        simp only [Option.some.injEq] at hr
        rw [← hr]
    | strmap kvs =>
      simp only [pgHStoreScan, Option.some.injEq] at hr
      rw [← hr]
  · intro T parse kts
    refine ⟨rfl, ?_, ?_⟩
    · intro hv fmtT
      simp [pgTimestampVal, pgTimestampString, pgTimestampBytes, hv]
    · intro src r hsrc hr
      cases src with
      | null => exact absurd rfl hsrc
      | time x =>
        simp only [pgTimestampScan, Option.some.injEq] at hr
        simp [← hr]
      | str s | bytes s =>
        simp only [pgTimestampScan] at hr
        cases hp : parse s with
        | none => rw [hp] at hr; exact absurd hr (by simp)
        | some pr =>
          rw [hp] at hr
          simp only [Option.some.injEq] at hr
          simp [← hr]
  · intro ke
    refine ⟨rfl, ?_, ?_⟩
    · intro hv
      simp [pgEnumVal, pgEnumString, pgEnumBytes, hv]
    · intro src hsrc
      cases src with
      | null => exact absurd rfl hsrc
      | str x | bytes x =>
        simp only [pgEnumScan]
        split <;> rfl
  · intro kn
    refine ⟨rfl, ?_, ?_⟩
    · intro hv
      simp [pgNumericVal, pgNumericString, pgNumericBytes, hv]
    · intro src hsrc
      cases src with
      | null => exact absurd rfl hsrc
      | str x | bytes x => rfl
  · intro kby
    refine ⟨rfl, ?_, ?_⟩
    · intro hv
      simp [pgByteaVal, pgByteaString, pgByteaBytes, hv]
    · intro src hsrc
      cases src with
      | null => exact absurd rfl hsrc
      | bytes x => rfl
  · intro V El dN dB ka
    refine ⟨rfl, ?_, ?_⟩
    · intro hv α f cb bare
      simp [pgArrayVal, pgArrayString, pgArrayBytes, arrayBytes, hv]
    · intro body
      cases body with
      | items xs => rfl
      | bytes b | str b =>
        simp only [pgArrayScan]
        cases hsp : split b <;> simp [hsp]
  · intro V El chN chB kr
    refine ⟨rfl, ?_, ?_⟩
    · intro hv α f cb bare
      simp [pgRowVal, pgRowString, pgRowBytes, rowBytes, hv]
    · intro body
      rfl
  · intro V El chN chB kc
    refine ⟨rfl, ?_, ?_⟩
    · intro hv α f cb bare
      simp [pgRecordVal, pgRecordString, pgRecordBytes, rowBytes, hv]
    · intro body
      rfl

/-- C5 (witness): the amended statement applied at concrete states — a NULL
SmallInt reports none from Val, a non-nil decode attempt marks it non-NULL,
a failing Enum decode also marks the value non-NULL, and a NULL Bytea renders
the NULL sentinel. -/
theorem null_decode_and_accessors_witness :
    pgIntegerVal ⟨7, 16, false⟩ = none
    ∧ (pgIntegerScan ⟨7, 16, false⟩ (.int 5)).1.valid = true
    ∧ (pgEnumScan ⟨[], [[97]], false⟩ (.str [98])).1.valid = true
    ∧ pgByteaBytes ⟨[1, 2], false⟩ = nullBytes := by
  obtain ⟨-, -, -, -, -, h6, -, -, -, -, h11, -, -, -, -, -, h17, -, h19, -, -, -⟩ :=
    null_decode_and_accessors ⟨7, 16, false⟩ newText ⟨false, false⟩ (newFloat 32) ⟨[], false⟩
  exact ⟨(h6 rfl).1, h11 (.int 5) (by decide),
    (h17 ⟨[], [[97]], false⟩).2.2 (.str [98]) (by decide),
    ((h19 ⟨[1, 2], false⟩).2.1 rfl).2.2⟩

/-- C6 (counterexample): boolean decode of the EMPTY string is not total — the
code reads the first byte unconditionally and faults with an index out of
range instead of yielding false, refuting the claim for every string input. -/
theorem boolScan_empty_string_fault :
    pgBoolScan ⟨false, false⟩ (.str []) = none := rfl

/-- C6 (amended): for every NON-EMPTY string or byte input, boolean decode
never returns an error and yields true exactly when the leading byte is t or
1, false for everything else; native bool input is stored as given. -/
theorem boolScan_leading_byte (k : pgBool) (s : List Nat) (h : s ≠ []) :
    pgBoolScan k (.str s) = some (⟨s.headD 0 == 116 || s.headD 0 == 49, true⟩, none)
    ∧ pgBoolScan k (.bytes s) = some (⟨s.headD 0 == 116 || s.headD 0 == 49, true⟩, none)
    ∧ ((s.headD 0 == 116 || s.headD 0 == 49) = true
        ↔ (s.headD 0 = 116 ∨ s.headD 0 = 49))
    ∧ (∀ x, pgBoolScan k (.bool x) = some (⟨x, true⟩, none)) := by
  cases s with
  | nil => exact absurd rfl h
  | cons c rest =>
    refine ⟨rfl, rfl, ?_, fun x => rfl⟩
    simp

/-- C6 (witness): the amended statement applied at the unrecognized one-byte
string z, which decodes to false without an error. -/
theorem boolScan_leading_byte_witness :
    ([122] : List Nat) ≠ []
    ∧ pgBoolScan ⟨false, false⟩ (.str [122]) = some (⟨false, true⟩, none) :=
  ⟨by decide, (boolScan_leading_byte ⟨false, false⟩ [122] (by decide)).1⟩

/-- C7: decoding the hstore literal with pairs k1/v1, an escaped-quote pair,
and a NULL-valued key k3 yields exactly the two quoted pairs — looking up k1
gives v1, looking up the unescaped key with an embedded quote gives the
unescaped quoted value, and k3 is absent from the map entirely. -/
theorem hstore_example_lookup :
    pgHStoreScan ⟨[], false⟩ (.bytes hsInput) = some (hsExpected, none)
    ∧ pgHStoreValueBy hsExpected [107, 49] = some ⟨[118, 49], 0, false, true⟩
    ∧ pgHStoreValueBy hsExpected [107, 34, 50] = some ⟨[34, 118, 50, 34], 0, false, true⟩
    ∧ pgHStoreValueBy hsExpected [107, 51] = none :=
  ⟨rfl, rfl, rfl, rfl⟩

/-- C8 (counterexample): the Real (32-bit) decode accepts the native float64
value -2^128 although its magnitude exceeds math.MaxFloat32, because the range
check is one-sided (x > MaxFloat32 only), refuting the magnitude claim. -/
theorem realScan_negative_overflow_accepted :
    pgFloatScan (newFloat 32) (.f64 (-340282366920938463463374607431768211456))
      = ({ n := -340282366920938463463374607431768211456, bs := 32, valid := true }, none)
    ∧ maxFloat32 < 340282366920938463463374607431768211456 := by
  constructor
  · rfl
  · rw [maxFloat32]
    norm_num

/-- C8 (amended): Real decode rejects a native float64 x exactly when
x > MaxFloat32 (positive overflow only — arbitrarily negative values are
accepted), an accepted value is stored at full 64-bit precision, Double
accepts everything, and the textual accessor of a non-NULL float always
records a FormatFloat call at 32-bit precision on the stored value. -/
theorem floatScan_semantics (x : Rat) :
    ((pgFloatScan (newFloat 32) (.f64 x)).2 = none ↔ ¬ maxFloat32 < x)
    ∧ (¬ maxFloat32 < x →
        pgFloatScan (newFloat 32) (.f64 x) = (⟨x, 32, true⟩, none))
    ∧ pgFloatScan (newFloat 64) (.f64 x) = (⟨x, 64, true⟩, none)
    ∧ (∀ k : pgFloat, k.valid = true → pgFloatString k = .floatFmt k.n 32) := by
  refine ⟨?_, ?_, ?_, ?_⟩
  · by_cases hx : maxFloat32 < x <;> simp [pgFloatScan, newFloat, hx]
  · intro hx; simp [pgFloatScan, newFloat, hx]
  · simp [pgFloatScan, newFloat]
  · intro k hk; simp [pgFloatString, hk]

/-- C8 (witness): the amended statement applied at x = 1. -/
theorem floatScan_semantics_witness :
    ¬ maxFloat32 < (1 : Rat)
    ∧ pgFloatScan (newFloat 32) (.f64 1) = (⟨1, 32, true⟩, none) := by
  have h1 : ¬ maxFloat32 < (1 : Rat) := by rw [maxFloat32]; norm_num
  exact ⟨h1, (floatScan_semantics 1).2.1 h1⟩

/-- Record field lookup walks the columns front to back and returns the child
at the first index whose column name matches, i.e. the value at
List.findIdx of the matching column (when one child exists per column). -/
theorem valueBy_eq_get_findIdx {V : Type} :
    ∀ (cs : List col) (vs : List V), vs.length = cs.length → ∀ name,
      valueBy cs vs name = vs.get? (cs.findIdx (fun c => c.name == name)) := by
  intro cs
  induction cs with
  | nil =>
    intro vs h name
    cases vs with
    | nil => rfl
    | cons v vs' => simp at h
  | cons c cs ih =>
    intro vs h name
    cases vs with
    | nil => simp at h
    | cons v vs' =>
      simp only [valueBy, List.findIdx_cons]
      by_cases hc : c.name = name
      · simp [hc]
      · have hb : (c.name == name) = false := by simp [hc]
        simp only [hc, if_false, hb, cond_false, List.get?_cons_succ]
        exact ih vs' (by simpa using h) name

/-- Lookup of a name absent from the declared columns returns none (Go nil). -/
theorem valueBy_not_mem {V : Type} :
    ∀ (cs : List col) (vs : List V) (name : List Nat),
      name ∉ cs.map col.name → valueBy cs vs name = none := by
  intro cs
  induction cs with
  | nil => intro vs name _; cases vs <;> rfl
  | cons c cs ih =>
    intro vs name hname
    cases vs with
    | nil => rfl
    | cons v vs' =>
      have hc : c.name ≠ name := by
        intro hc; exact hname (by simp [hc])
      simp only [valueBy, hc, if_false]
      exact ih vs' name (fun hm => hname (by simp [hm]))

/-- Lookup of a declared name returns some child. -/
theorem valueBy_mem {V : Type} :
    ∀ (cs : List col) (vs : List V) (name : List Nat), vs.length = cs.length →
      name ∈ cs.map col.name → ∃ v, valueBy cs vs name = some v := by
  intro cs
  induction cs with
  | nil => intro vs name _ hmem; simp at hmem
  | cons c cs ih =>
    intro vs name hlen hmem
    cases vs with
    | nil => simp at hlen
    | cons v vs' =>
      by_cases hc : c.name = name
      · exact ⟨v, by simp [valueBy, hc]⟩
      · have hmem' : name ∈ cs.map col.name := by
          simp only [List.map_cons, List.mem_cons] at hmem
          tauto
        obtain ⟨w, hw⟩ := ih vs' name (by simpa using hlen) hmem'
        exact ⟨w, by simp [valueBy, hc, hw]⟩

/-- C9: for a Record with one child per declared column, ValueBy of a name not
among the declared column names returns none — the absent-lookup condition the
spec calls a LookupError, not a valid child — while a declared name returns
the child at that (first matching) column position. -/
theorem recordValueBy_lookup {V : Type} (k : pgRecord V) (name : List Nat)
    (hlen : k.vs.length = k.cs.length) :
    pgRecordValueBy k name = k.vs.get? (k.cs.findIdx (fun c => c.name == name))
    ∧ (name ∉ k.cs.map col.name → pgRecordValueBy k name = none)
    ∧ (name ∈ k.cs.map col.name → ∃ v, pgRecordValueBy k name = some v) :=
  ⟨valueBy_eq_get_findIdx k.cs k.vs hlen name,
   fun h => valueBy_not_mem k.cs k.vs name h,
   fun h => valueBy_mem k.cs k.vs name hlen h⟩

/-- C9 (witness): looking up age in the example record returns the child at
the age column position (53), and looking up the undeclared height returns
none. -/
theorem recordValueBy_lookup_witness :
    pgRecordValueBy jeffRecord [97, 103, 101]
      = jeffRecord.vs.get? (jeffRecord.cs.findIdx (fun c => c.name == [97, 103, 101]))
    ∧ pgRecordValueBy jeffRecord [104, 101, 105, 103, 104, 116] = none :=
  ⟨(recordValueBy_lookup jeffRecord [97, 103, 101] (by decide)).1,
   (recordValueBy_lookup jeffRecord [104, 101, 105, 103, 104, 116] (by decide)).2.1
     (by decide)⟩

/-- C10: boolean decode of an empty byte slice is NOT total: the code indexes
the first byte unconditionally and faults with an index out of range, where
the documented behavior (unrecognized input decodes to false without error)
requires a result. -/
theorem boolScan_empty_bytes_fault :
    pgBoolScan ⟨false, false⟩ (.bytes []) = none := rfl

/-- replace1 on a cons, as an unconditional rewrite. -/
theorem replace1_cons (a : Nat) (rep : List Nat) (b : Nat) (l : List Nat) :
    replace1 a rep (b :: l)
      = if b = a then rep ++ replace1 a rep l else b :: replace1 a rep l := rfl

/-- A one-byte pattern replacement distributes over append. -/
theorem replace1_append (a : Nat) (rep : List Nat) (l1 l2 : List Nat) :
    replace1 a rep (l1 ++ l2) = replace1 a rep l1 ++ replace1 a rep l2 := by
  induction l1 with
  | nil => rfl
  | cons b t ih =>
    simp only [List.cons_append, replace1_cons]
    by_cases hb : b = a <;> simp [hb, ih]

/-- The array-dialect escaper equals its byte-wise description: `\` ↦ `\\`,
`"` ↦ `\"`, anything else unchanged. -/
theorem escape1_flat (s : List Nat) : escape s 1 = escAll1 s := by
  induction s with
  | nil => rfl
  | cons b t ih =>
    have ht : escape t 1 = replace1 34 [92, 34] (replace1 92 [92, 92] t) := rfl
    show replace1 34 [92, 34] (replace1 92 [92, 92] (b :: t)) = escAll1 (b :: t)
    rw [replace1_cons]
    by_cases hb92 : b = 92
    · rw [if_pos hb92, replace1_append, ← ht, ih]
      simp [replace1, escAll1, escByte1, hb92]
    · rw [if_neg hb92, replace1_cons]
      by_cases hb34 : b = 34
      · rw [if_pos hb34, ← ht, ih]
        simp [escAll1, escByte1, hb92, hb34]
      · rw [if_neg hb34, ← ht, ih]
        simp [escAll1, escByte1, hb92, hb34]

/-- The row-dialect escaper equals its byte-wise description: `\` ↦ `\\`,
`"` ↦ `""`, anything else unchanged. -/
theorem escape2_flat (s : List Nat) : escape s 2 = escAll2 s := by
  induction s with
  | nil => rfl
  | cons b t ih =>
    have ht : escape t 2 = replace1 34 [34, 34] (replace1 92 [92, 92] t) := rfl
    show replace1 34 [34, 34] (replace1 92 [92, 92] (b :: t)) = escAll2 (b :: t)
    rw [replace1_cons]
    by_cases hb92 : b = 92
    · rw [if_pos hb92, replace1_append, ← ht, ih]
      simp [replace1, escAll2, escByte2, hb92]
    · rw [if_neg hb92, replace1_cons]
      by_cases hb34 : b = 34
      · rw [if_pos hb34, ← ht, ih]
        simp [escAll2, escByte2, hb92, hb34]
      · rw [if_neg hb34, ← ht, ih]
        simp [escAll2, escByte2, hb92, hb34]

/-- A two-byte pattern replacement consumes a match at the front. -/
theorem replace2_cons_pos (a1 a2 : Nat) (rep l : List Nat) :
    replace2 a1 a2 rep (a1 :: a2 :: l) = rep ++ replace2 a1 a2 rep l := by
  simp [replace2]

/-- A two-byte pattern replacement skips a head byte that cannot start a
match — either because it differs from the first pattern byte, or because the
tail cannot begin with the second pattern byte. -/
theorem replace2_cons_of (a1 a2 : Nat) (rep : List Nat) (b1 : Nat) (l : List Nat)
    (h : b1 ≠ a1 ∨ ∀ u, l ≠ a2 :: u) :
    replace2 a1 a2 rep (b1 :: l) = b1 :: replace2 a1 a2 rep l := by
  cases l with
  | nil => rfl
  | cons b2 l' =>
    have hcond : ¬(b1 = a1 ∧ b2 = a2) := by
      rcases h with h | h
      · exact fun hc => h hc.1
      · intro hc
        exact h l' (by rw [hc.2])
    simp [replace2, hcond]

/-- The intermediate form gAll1 never begins with a bare quote (quotes are
always preceded by a backslash). -/
theorem gAll1_not_quote_head (t u : List Nat) : gAll1 t ≠ 34 :: u := by
  cases t with
  | nil => simp [gAll1]
  | cons c t' =>
    simp only [gAll1, gByte1]
    by_cases hc : c = 34 <;> simp [hc]

/-- The backslash-unescape pass `\\` → `\` over an array-escaped string
rebuilds the original backslashes and leaves quotes in `\"` form. -/
theorem un92_escAll1 (s : List Nat) : replace2 92 92 [92] (escAll1 s) = gAll1 s := by
  induction s with
  | nil => rfl
  | cons b t ih =>
    simp only [escAll1, escByte1, gAll1, gByte1]
    by_cases hb92 : b = 92
    · rw [if_pos hb92,
        show ([92, 92] : List Nat) ++ escAll1 t = 92 :: 92 :: escAll1 t from rfl,
        replace2_cons_pos, ih]
      simp [hb92]
    · by_cases hb34 : b = 34
      · rw [if_neg hb92, if_pos hb34,
          show ([92, 34] : List Nat) ++ escAll1 t = 92 :: 34 :: escAll1 t from rfl,
          replace2_cons_of 92 92 [92] 92 (34 :: escAll1 t) (Or.inr (by simp)),
          replace2_cons_of 92 92 [92] 34 (escAll1 t) (Or.inl (by decide)), ih]
        simp [hb34]
      · rw [if_neg hb92, if_neg hb34,
          show ([b] : List Nat) ++ escAll1 t = b :: escAll1 t from rfl,
          replace2_cons_of 92 92 [92] b (escAll1 t) (Or.inl hb92), ih]
        simp [hb34]

/-- The quote-unescape pass `\"` → `"` over gAll1 recovers the original
bytes: array-dialect unescaping inverts the array-dialect escaper. -/
theorem un34_gAll1 (s : List Nat) : replace2 92 34 [34] (gAll1 s) = s := by
  induction s with
  | nil => rfl
  | cons b t ih =>
    simp only [gAll1, gByte1]
    by_cases hb34 : b = 34
    · rw [if_pos hb34,
        show ([92, 34] : List Nat) ++ gAll1 t = 92 :: 34 :: gAll1 t from rfl,
        replace2_cons_pos, ih]
      rw [hb34]
      rfl
    · rw [if_neg hb34, show ([b] : List Nat) ++ gAll1 t = b :: gAll1 t from rfl]
      by_cases hb92 : b = 92
      · rw [replace2_cons_of 92 34 [34] b (gAll1 t)
          (Or.inr (fun u => gAll1_not_quote_head t u)), ih]
      · rw [replace2_cons_of 92 34 [34] b (gAll1 t) (Or.inl hb92), ih]

/-- The backslash-unescape pass over a row-escaped string rebuilds the
original backslashes and leaves quotes in doubled form. -/
theorem un92_escAll2 (s : List Nat) : replace2 92 92 [92] (escAll2 s) = gAll2 s := by
  induction s with
  | nil => rfl
  | cons b t ih =>
    simp only [escAll2, escByte2, gAll2, gByte2]
    by_cases hb92 : b = 92
    · rw [if_pos hb92,
        show ([92, 92] : List Nat) ++ escAll2 t = 92 :: 92 :: escAll2 t from rfl,
        replace2_cons_pos, ih]
      simp [hb92]
    · by_cases hb34 : b = 34
      · rw [if_neg hb92, if_pos hb34,
          show ([34, 34] : List Nat) ++ escAll2 t = 34 :: 34 :: escAll2 t from rfl,
          replace2_cons_of 92 92 [92] 34 (34 :: escAll2 t) (Or.inl (by decide)),
          replace2_cons_of 92 92 [92] 34 (escAll2 t) (Or.inl (by decide)), ih]
        simp [hb34]
      · rw [if_neg hb92, if_neg hb34,
          show ([b] : List Nat) ++ escAll2 t = b :: escAll2 t from rfl,
          replace2_cons_of 92 92 [92] b (escAll2 t) (Or.inl hb92), ih]
        simp [hb34]

/-- The quote-undoubling pass `""` → `"` over gAll2 recovers the original
bytes: row-dialect unescaping inverts the row-dialect escaper. -/
theorem un34_gAll2 (s : List Nat) : replace2 34 34 [34] (gAll2 s) = s := by
  induction s with
  | nil => rfl
  | cons b t ih =>
    simp only [gAll2, gByte2]
    by_cases hb34 : b = 34
    · rw [if_pos hb34,
        show ([34, 34] : List Nat) ++ gAll2 t = 34 :: 34 :: gAll2 t from rfl,
        replace2_cons_pos, ih]
      rw [hb34]
      rfl
    · rw [if_neg hb34, show ([b] : List Nat) ++ gAll2 t = b :: gAll2 t from rfl,
        replace2_cons_of 34 34 [34] b (gAll2 t) (Or.inl hb34), ih]

/-- An element whose first two bytes are not `\x` is left alone by the
hex-decode check of splitExtract. -/
theorem hexGuardFalse (s : List Nat) (h : s.take 2 ≠ [92, 120]) :
    ¬(2 ≤ s.length ∧ s.headD 0 = 92 ∧ (s.drop 1).headD 0 = 120) := by
  rintro ⟨hlen, h0, h1⟩
  cases s with
  | nil => simp at hlen
  | cons a t =>
    cases t with
    | nil => simp at hlen
    | cons b t' =>
      simp only [List.headD_cons, List.drop_succ_cons, List.drop_zero] at h0 h1
      exact h (by simp [h0, h1])

/-- Extraction does nothing while no element end has been marked. -/
theorem extract_noop (sFull : List Nat) (p : List (List Nat)) (ign : Bool)
    (d : Int) (mode closer : Nat) (a0 : Int) :
    splitExtract sFull ⟨p, ign, d, mode, closer, a0, -1⟩
      = ⟨p, ign, d, mode, closer, a0, -1⟩ := by
  simp [splitExtract]

/-- Inside an array-mode quoted element, a backslash arms the escape-skip
flag. -/
theorem stepArrEsc (sFull : List Nat) (len i look : Nat) (p : List (List Nat))
    (d a0 : Int) (h1 : a0 ≠ -1) (h2 : i ≠ len - 1) :
    splitStep sFull len i 92 look ⟨p, false, d, 125, 34, a0, -1⟩
      = .ok ⟨p, true, d, 125, 34, a0, -1⟩ := by
  simp [splitStep, h1, h2]

/-- With the escape-skip flag set, the next byte only clears the flag. -/
theorem stepIgnoreOff (sFull : List Nat) (len i b look : Nat)
    (p : List (List Nat)) (d : Int) (mode : Nat) (a0 : Int)
    (h1 : a0 ≠ -1) (h2 : i ≠ len - 1) :
    splitStep sFull len i b look ⟨p, true, d, mode, 34, a0, -1⟩
      = .ok ⟨p, false, d, mode, 34, a0, -1⟩ := by
  simp [splitStep, h1, h2]

/-- Inside an array-mode quoted element, a byte that is neither backslash nor
quote leaves the scan state unchanged. -/
theorem stepArrPlain (sFull : List Nat) (len i b look : Nat)
    (p : List (List Nat)) (d a0 : Int)
    (h1 : a0 ≠ -1) (h2 : i ≠ len - 1) (hb92 : b ≠ 92) (hb34 : b ≠ 34) :
    splitStep sFull len i b look ⟨p, false, d, 125, 34, a0, -1⟩
      = .ok ⟨p, false, d, 125, 34, a0, -1⟩ := by
  simp [splitStep, h1, h2, hb92, hb34]

/-- Inside a row-mode quoted element, any non-quote byte (backslashes
included: row mode has no backslash escape) leaves the state unchanged. -/
theorem stepRowNoQuote (sFull : List Nat) (len i b look : Nat)
    (p : List (List Nat)) (d a0 : Int)
    (h1 : a0 ≠ -1) (h2 : i ≠ len - 1) (hb34 : b ≠ 34) :
    splitStep sFull len i b look ⟨p, false, d, 41, 34, a0, -1⟩
      = .ok ⟨p, false, d, 41, 34, a0, -1⟩ := by
  simp [splitStep, h1, h2, hb34]

/-- Inside a row-mode quoted element, a quote whose successor is also a quote
is a doubled-quote escape: it arms the skip flag. -/
theorem stepRowQuotePair (sFull : List Nat) (len i : Nat)
    (p : List (List Nat)) (d a0 : Int) (h1 : a0 ≠ -1) (h2 : i ≠ len - 1) :
    splitStep sFull len i 34 34 ⟨p, false, d, 41, 34, a0, -1⟩
      = .ok ⟨p, true, d, 41, 34, a0, -1⟩ := by
  simp [splitStep, h1, h2]

/-- An unescaped quote closes a quoted element (array mode always; row mode
when the successor is not another quote), marking its end one byte back. -/
theorem stepQuoteClose (sFull : List Nat) (len i look : Nat)
    (p : List (List Nat)) (d : Int) (mode : Nat) (a0 : Int)
    (h1 : a0 ≠ -1) (h2 : i ≠ len - 1) (hml : mode ≠ 41 ∨ look ≠ 34) :
    splitStep sFull len i 34 look ⟨p, false, d, mode, 34, a0, -1⟩
      = .ok ⟨p, false, d, mode, 34, a0, (i : Int) - 1⟩ := by
  rcases hml with h | h <;> simp [splitStep, h1, h2, h]

/-- Outside any element, a quote starts a quoted element at the next byte. -/
theorem stepOpenQuote (sFull : List Nat) (len i look : Nat)
    (p : List (List Nat)) (ign : Bool) (d : Int) (mode closer : Nat) :
    splitStep sFull len i 34 look ⟨p, ign, d, mode, closer, -1, -1⟩
      = .ok ⟨p, ign, d, mode, 34, (i : Int) + 1, -1⟩ := by
  simp [splitStep]

/-- Outside any element, a byte that is not space/comma/brace/quote starts a
bare element (this is how the loop consumes the final closing delimiter after
the last element has already been extracted). -/
theorem stepBareStart (sFull : List Nat) (len i b look : Nat)
    (p : List (List Nat)) (ign : Bool) (d : Int) (mode closer : Nat)
    (hb1 : b ≠ 32) (hb2 : b ≠ 44) (hb3 : b ≠ 123) (hb4 : b ≠ 34) :
    splitStep sFull len i b look ⟨p, ign, d, mode, closer, -1, -1⟩
      = .ok ⟨p, ign, d, mode, 44, (i : Int), -1⟩ := by
  simp [splitStep, hb1, hb2, hb3, hb4]

/-- Scanning the array-escaped image of any byte string inside a quoted
array element leaves the loop state untouched: every escaped group is either
backslash-then-skipped-byte or a single byte that matches no case. -/
theorem splitLoop_skip_arr (sFull : List Nat) (len : Nat) :
    ∀ (t : List Nat) (i : Nat) (bs' : List Nat) (p : List (List Nat)) (d a0 : Int),
      a0 ≠ -1 → i + (escAll1 t).length < len →
      splitLoop sFull len i (escAll1 t ++ bs') ⟨p, false, d, 125, 34, a0, -1⟩
        = splitLoop sFull len (i + (escAll1 t).length) bs' ⟨p, false, d, 125, 34, a0, -1⟩ := by
  intro t
  induction t with
  | nil =>
    intro i bs' p d a0 h1 h2
    simp [escAll1]
  | cons b t ih =>
    intro i bs' p d a0 h1 h2
    by_cases hb92 : b = 92
    · have hL : (escAll1 (b :: t)).length = 2 + (escAll1 t).length := by
        simp [escAll1, escByte1, hb92] <;> omega
      have hi1 : i ≠ len - 1 := by omega
      have hi2 : i + 1 ≠ len - 1 := by omega
      have hcont : escAll1 (b :: t) ++ bs' = 92 :: 92 :: (escAll1 t ++ bs') := by
        simp [escAll1, escByte1, hb92]
      rw [hcont]
      simp only [splitLoop, List.headD_cons,
        stepArrEsc sFull len i 92 p d a0 h1 hi1,
        stepIgnoreOff sFull len (i + 1) 92 ((escAll1 t ++ bs').headD 0) p d 125 a0 h1 hi2,
        extract_noop]
      rw [ih (i + 1 + 1) bs' p d a0 h1 (by omega),
        show i + 1 + 1 + (escAll1 t).length = i + (escAll1 (b :: t)).length from by omega]
    · by_cases hb34 : b = 34
      · have hL : (escAll1 (b :: t)).length = 2 + (escAll1 t).length := by
          simp [escAll1, escByte1, hb92, hb34] <;> omega
        have hi1 : i ≠ len - 1 := by omega
        have hi2 : i + 1 ≠ len - 1 := by omega
        have hcont : escAll1 (b :: t) ++ bs' = 92 :: 34 :: (escAll1 t ++ bs') := by
          simp [escAll1, escByte1, hb92, hb34]
        rw [hcont]
        simp only [splitLoop, List.headD_cons,
          stepArrEsc sFull len i 34 p d a0 h1 hi1,
          stepIgnoreOff sFull len (i + 1) 34 ((escAll1 t ++ bs').headD 0) p d 125 a0 h1 hi2,
          extract_noop]
        rw [ih (i + 1 + 1) bs' p d a0 h1 (by omega),
          show i + 1 + 1 + (escAll1 t).length = i + (escAll1 (b :: t)).length from by omega]
      · have hL : (escAll1 (b :: t)).length = 1 + (escAll1 t).length := by
          simp [escAll1, escByte1, hb92, hb34] <;> omega
        have hi1 : i ≠ len - 1 := by omega
        have hcont : escAll1 (b :: t) ++ bs' = b :: (escAll1 t ++ bs') := by
          simp [escAll1, escByte1, hb92, hb34]
        rw [hcont]
        simp only [splitLoop, List.headD_cons,
          stepArrPlain sFull len i b ((escAll1 t ++ bs').headD 0) p d a0 h1 hi1 hb92 hb34,
          extract_noop]
        rw [ih (i + 1) bs' p d a0 h1 (by omega),
          show i + 1 + (escAll1 t).length = i + (escAll1 (b :: t)).length from by omega]

/-- Scanning the row-escaped image of any byte string inside a quoted row
element leaves the loop state untouched: doubled quotes arm-then-clear the
skip flag, everything else matches no case. -/
theorem splitLoop_skip_row (sFull : List Nat) (len : Nat) :
    ∀ (t : List Nat) (i : Nat) (bs' : List Nat) (p : List (List Nat)) (d a0 : Int),
      a0 ≠ -1 → i + (escAll2 t).length < len →
      splitLoop sFull len i (escAll2 t ++ bs') ⟨p, false, d, 41, 34, a0, -1⟩
        = splitLoop sFull len (i + (escAll2 t).length) bs' ⟨p, false, d, 41, 34, a0, -1⟩ := by
  intro t
  induction t with
  | nil =>
    intro i bs' p d a0 h1 h2
    simp [escAll2]
  | cons b t ih =>
    intro i bs' p d a0 h1 h2
    by_cases hb92 : b = 92
    · have hL : (escAll2 (b :: t)).length = 2 + (escAll2 t).length := by
        simp [escAll2, escByte2, hb92] <;> omega
      have hi1 : i ≠ len - 1 := by omega
      have hi2 : i + 1 ≠ len - 1 := by omega
      have hcont : escAll2 (b :: t) ++ bs' = 92 :: 92 :: (escAll2 t ++ bs') := by
        simp [escAll2, escByte2, hb92]
      rw [hcont]
      simp only [splitLoop, List.headD_cons,
        stepRowNoQuote sFull len i 92 92 p d a0 h1 hi1 (by decide),
        stepRowNoQuote sFull len (i + 1) 92 ((escAll2 t ++ bs').headD 0) p d a0 h1 hi2
          (by decide),
        extract_noop]
      rw [ih (i + 1 + 1) bs' p d a0 h1 (by omega),
        show i + 1 + 1 + (escAll2 t).length = i + (escAll2 (b :: t)).length from by omega]
    · by_cases hb34 : b = 34
      · have hL : (escAll2 (b :: t)).length = 2 + (escAll2 t).length := by
          simp [escAll2, escByte2, hb92, hb34] <;> omega
        have hi1 : i ≠ len - 1 := by omega
        have hi2 : i + 1 ≠ len - 1 := by omega
        have hcont : escAll2 (b :: t) ++ bs' = 34 :: 34 :: (escAll2 t ++ bs') := by
          simp [escAll2, escByte2, hb92, hb34]
        rw [hcont]
        simp only [splitLoop, List.headD_cons,
          stepRowQuotePair sFull len i p d a0 h1 hi1,
          stepIgnoreOff sFull len (i + 1) 34 ((escAll2 t ++ bs').headD 0) p d 41 a0 h1 hi2,
          extract_noop]
        rw [ih (i + 1 + 1) bs' p d a0 h1 (by omega),
          show i + 1 + 1 + (escAll2 t).length = i + (escAll2 (b :: t)).length from by omega]
      · have hL : (escAll2 (b :: t)).length = 1 + (escAll2 t).length := by
          simp [escAll2, escByte2, hb92, hb34] <;> omega
        have hi1 : i ≠ len - 1 := by omega
        have hcont : escAll2 (b :: t) ++ bs' = b :: (escAll2 t ++ bs') := by
          simp [escAll2, escByte2, hb92, hb34]
        rw [hcont]
        simp only [splitLoop, List.headD_cons,
          stepRowNoQuote sFull len i b ((escAll2 t ++ bs').headD 0) p d a0 h1 hi1 hb34,
          extract_noop]
        rw [ih (i + 1) bs' p d a0 h1 (by omega),
          show i + 1 + (escAll2 t).length = i + (escAll2 (b :: t)).length from by omega]

/-- Extracting the quoted array element recovers the original bytes: the
slice is exactly the escaped content, the two unescape passes invert the two
escape passes, and an element not beginning with `\x` skips hex decoding. -/
theorem extract_quoted_arr (s : List Nat) (h : s.take 2 ≠ [92, 120]) :
    splitExtract (123 :: 34 :: (escAll1 s ++ [34, 125]))
      ⟨[], false, 0, 125, 34, 2, (↑(2 + (escAll1 s).length) : Int) - 1⟩
      = ⟨[s], false, 0, 125, 34, -1, -1⟩ := by
  have hguard := hexGuardFalse s h
  simp at hguard
  have htake : (escAll1 s ++ [34, 125]).take (escAll1 s).length = escAll1 s :=
    List.take_left _ _
  obtain ⟨zv, hzv⟩ : ∃ zv, (↑(2 + (escAll1 s).length) : Int) - 1 = zv := ⟨_, rfl⟩
  rw [hzv]
  have hz : zv ≠ -1 := by omega
  have hcount : (zv + 1 - 2).toNat = (escAll1 s).length := by omega
  simp [splitExtract, hz, hcount, htake, un92_escAll1, un34_gAll1]
  intro h1 h2 h3
  exact absurd h3 (hguard h1 h2)

/-- Extracting the quoted row element recovers the original bytes, with the
row-dialect quote-undoubling as the second unescape pass. -/
theorem extract_quoted_row (s : List Nat) (h : s.take 2 ≠ [92, 120]) :
    splitExtract (40 :: 34 :: (escAll2 s ++ [34, 41]))
      ⟨[], false, 0, 41, 34, 2, (↑(2 + (escAll2 s).length) : Int) - 1⟩
      = ⟨[s], false, 0, 41, 34, -1, -1⟩ := by
  have hguard := hexGuardFalse s h
  simp at hguard
  have htake : (escAll2 s ++ [34, 41]).take (escAll2 s).length = escAll2 s :=
    List.take_left _ _
  obtain ⟨zv, hzv⟩ : ∃ zv, (↑(2 + (escAll2 s).length) : Int) - 1 = zv := ⟨_, rfl⟩
  rw [hzv]
  have hz : zv ≠ -1 := by omega
  have hcount : (zv + 1 - 2).toNat = (escAll2 s).length := by omega
  simp [splitExtract, hz, hcount, htake, un92_escAll2, un34_gAll2]
  intro h1 h2 h3
  exact absurd h3 (hguard h1 h2)

/-- Tokenizing the array literal whose single double-quoted element is the
array-escaped image of s yields exactly s back (for s not starting with the
hex-decode marker bytes). -/
theorem split_quoted_arr (s : List Nat) (h : s.take 2 ≠ [92, 120]) :
    split (123 :: 34 :: (escAll1 s ++ [34, 125])) = .ok [s] := by
  have hlen : (123 :: 34 :: (escAll1 s ++ [34, 125])).length = (escAll1 s).length + 4 := by
    simp
  have e0 : split (123 :: 34 :: (escAll1 s ++ [34, 125]))
      = splitLoop (123 :: 34 :: (escAll1 s ++ [34, 125])) ((escAll1 s).length + 4) 1
          (34 :: (escAll1 s ++ [34, 125])) ⟨[], false, 0, 125, 0, -1, -1⟩ := by
    simp [split, hlen]
  rw [e0]
  simp only [splitLoop, List.headD_cons,
    stepOpenQuote (123 :: 34 :: (escAll1 s ++ [34, 125])) ((escAll1 s).length + 4) 1
      ((escAll1 s ++ [34, 125]).headD 0) [] false 0 125 0,
    extract_noop]
  show splitLoop (123 :: 34 :: (escAll1 s ++ [34, 125])) ((escAll1 s).length + 4) 2
      (escAll1 s ++ [34, 125]) ⟨[], false, 0, 125, 34, 2, -1⟩ = .ok [s]
  rw [splitLoop_skip_arr (123 :: 34 :: (escAll1 s ++ [34, 125])) ((escAll1 s).length + 4)
    s 2 [34, 125] [] 0 2 (by decide) (by omega)]
  simp only [splitLoop, List.headD_cons, List.headD_nil,
    stepQuoteClose (123 :: 34 :: (escAll1 s ++ [34, 125])) ((escAll1 s).length + 4)
      (2 + (escAll1 s).length) 125 [] 0 125 2 (by decide) (by omega) (Or.inl (by decide)),
    extract_quoted_arr s h,
    stepBareStart (123 :: 34 :: (escAll1 s ++ [34, 125])) ((escAll1 s).length + 4)
      (2 + (escAll1 s).length + 1) 125 0 [s] false 0 125 34
      (by decide) (by decide) (by decide) (by decide),
    extract_noop]

/-- Tokenizing the row literal whose single double-quoted element is the
row-escaped image of s yields exactly s back (for s not starting with the
hex-decode marker bytes). -/
theorem split_quoted_row (s : List Nat) (h : s.take 2 ≠ [92, 120]) :
    split (40 :: 34 :: (escAll2 s ++ [34, 41])) = .ok [s] := by
  have hlen : (40 :: 34 :: (escAll2 s ++ [34, 41])).length = (escAll2 s).length + 4 := by
    simp
  have e0 : split (40 :: 34 :: (escAll2 s ++ [34, 41]))
      = splitLoop (40 :: 34 :: (escAll2 s ++ [34, 41])) ((escAll2 s).length + 4) 1
          (34 :: (escAll2 s ++ [34, 41])) ⟨[], false, 0, 41, 0, -1, -1⟩ := by
    simp [split, hlen]
  rw [e0]
  simp only [splitLoop, List.headD_cons,
    stepOpenQuote (40 :: 34 :: (escAll2 s ++ [34, 41])) ((escAll2 s).length + 4) 1
      ((escAll2 s ++ [34, 41]).headD 0) [] false 0 41 0,
    extract_noop]
  show splitLoop (40 :: 34 :: (escAll2 s ++ [34, 41])) ((escAll2 s).length + 4) 2
      (escAll2 s ++ [34, 41]) ⟨[], false, 0, 41, 34, 2, -1⟩ = .ok [s]
  rw [splitLoop_skip_row (40 :: 34 :: (escAll2 s ++ [34, 41])) ((escAll2 s).length + 4)
    s 2 [34, 41] [] 0 2 (by decide) (by omega)]
  simp only [splitLoop, List.headD_cons, List.headD_nil,
    stepQuoteClose (40 :: 34 :: (escAll2 s ++ [34, 41])) ((escAll2 s).length + 4)
      (2 + (escAll2 s).length) 41 [] 0 41 2 (by decide) (by omega) (Or.inr (by decide)),
    extract_quoted_row s h,
    stepBareStart (40 :: 34 :: (escAll2 s ++ [34, 41])) ((escAll2 s).length + 4)
      (2 + (escAll2 s).length + 1) 41 0 [s] false 0 41 34
      (by decide) (by decide) (by decide) (by decide),
    extract_noop]

/-- C1 (amended): the write-path escaper is inverted by the tokenizer for
every byte sequence that does not begin with the two bytes backslash-x:
tokenizing escape(s, 1) as the double-quoted element of an array literal, or
escape(s, 2) as the double-quoted element of a row literal, yields exactly s,
and escape(s, 0) is the identity.  (An element that does begin with
backslash-x is additionally hex-decoded by the tokenizer, so the round trip
fails there — see the counterexample.) -/
theorem escape_split_inverse (s : List Nat) (h : s.take 2 ≠ [92, 120]) :
    split (123 :: 34 :: (escape s 1 ++ [34, 125])) = .ok [s]
    ∧ split (40 :: 34 :: (escape s 2 ++ [34, 41])) = .ok [s]
    ∧ escape s 0 = s := by
  refine ⟨?_, ?_, ?_⟩
  · rw [escape1_flat]
    exact split_quoted_arr s h
  · rw [escape2_flat]
    exact split_quoted_row s h
  · rfl

/-- C1 (witness): the amended statement applied at the one-byte string a. -/
theorem escape_split_inverse_witness :
    (([97] : List Nat).take 2 ≠ [92, 120])
    ∧ split (123 :: 34 :: (escape [97] 1 ++ [34, 125])) = .ok [[97]] :=
  ⟨by decide, (escape_split_inverse [97] (by decide)).1⟩

/-- C1 (counterexample): for the two-byte sequence backslash-x the round trip
fails: the tokenizer treats the unescaped element as a hex-bytea payload,
hex-decodes its (empty) remainder, and returns the empty element instead of
the original bytes. -/
theorem escape_split_hex_not_inverse :
    split (123 :: 34 :: (escape [92, 120] 1 ++ [34, 125])) = .ok [[]]
    ∧ ([[]] : List (List Nat)) ≠ [[92, 120]] :=
  ⟨rfl, by decide⟩

end PG
